import Mathlib

/-!
Verification of the synapse-ng node core (src/app/main.py, src/app/zkp_utils.py)
against its natural-language specification.

The Python code manipulates JSON-shaped dictionaries.  We embed the dynamic
values as the inductive type `Value` below, Python dicts appearing inside
entities as association lists (insertion-ordered, as CPython dicts are), and
the top-level channel maps as functions `String → Option _` (Python `==` on
dicts is content equality, which function extensionality mirrors).
Machine floats used by the source (`transaction_tax_percentage`, auction
scores, tier weights) are embedded as exact rationals; Python `round` is
round-half-to-even and is embedded as `pythonRound`.
-/

namespace SynapseNG

/-- JSON-shaped dynamic value, as manipulated by the Python source.
Python ints and floats are kept in separate constructors (`isinstance(x, int)`
distinguishes them); booleans are separate as the source explicitly excludes
`bool` where it checks for `integer`. -/
inductive Value where
  | null : Value
  | bool (b : Bool) : Value
  | int (n : Int) : Value
  | num (q : ℚ) : Value
  | str (s : String) : Value
  | list (xs : List Value) : Value
  | obj (fields : List (String × Value)) : Value
deriving Repr

mutual

/-- Python `==` on values (restricted to the shapes the source compares:
numbers compare across int/float, containers compare element-wise). -/
def Value.beq : Value → Value → Bool
  | .null, .null => true
  | .bool a, .bool b => a == b
  | .int a, .int b => a == b
  | .num a, .num b => a == b
  | .int a, .num b => ((a : ℚ) == b)
  | .num a, .int b => (a == (b : ℚ))
  | .str a, .str b => a == b
  | .list xs, .list ys => Value.beqList xs ys
  | .obj xs, .obj ys => Value.beqObj xs ys
  | _, _ => false

def Value.beqList : List Value → List Value → Bool
  | [], [] => true
  | x :: xs, y :: ys => Value.beq x y && Value.beqList xs ys
  | _, _ => false

def Value.beqObj : List (String × Value) → List (String × Value) → Bool
  | [], [] => true
  | (k, x) :: xs, (l, y) :: ys => k == l && Value.beq x y && Value.beqObj xs ys
  | _, _ => false

end

/-- Python truthiness, used by the source at `if required and ...`,
`if command_id and ...`, `if incoming_vs_updated_at and ...`. -/
def Value.isTruthy : Value → Bool
  | .null => false
  | .bool b => b
  | .int n => n != 0
  | .num q => q != 0
  | .str s => s ≠ ""
  | .list xs => !xs.isEmpty
  | .obj xs => !xs.isEmpty

/-- `d.get(k)` on a dict embedded as an association list. -/
def objGet (fields : List (String × Value)) (k : String) : Option Value :=
  match fields.find? (fun p => p.1 = k) with
  | some p => some p.2
  | none => none

/-- `d.get(k, default)`. -/
def objGetD (fields : List (String × Value)) (k : String) (dflt : Value) : Value :=
  (objGet fields k).getD dflt

/-- `k in d`. -/
def objHas (fields : List (String × Value)) (k : String) : Bool :=
  (objGet fields k).isSome

/-- `d[k] = v` on a CPython dict: replace the value in place if the key is
present, otherwise append the pair at the end. -/
def objSet (fields : List (String × Value)) (k : String) (v : Value) :
    List (String × Value) :=
  if objHas fields k then
    fields.map (fun p => if p.1 = k then (k, v) else p)
  else
    fields ++ [(k, v)]

/-- `d.update(e)`: apply `objSet` for the items of `e` in order. -/
def objUpdate (fields incoming : List (String × Value)) : List (String × Value) :=
  incoming.foldl (fun acc p => objSet acc p.1 p.2) fields

/-- `d.get(k, "")` where a string is expected (the merge engine reads
`updated_at`, `ratified_at` this way). Non-string values never arise in the
states the source builds; they are given the default to keep the function
total. -/
def objGetStr (fields : List (String × Value)) (k : String) : String :=
  match objGet fields k with
  | some (.str s) => s
  | _ => ""

/-- `d.get(k)` where the source tests the result for truthiness before use
(`command_id`, `proposal_id`). -/
def objGetTruthyStr (fields : List (String × Value)) (k : String) : Option String :=
  match objGet fields k with
  | some (.str s) => if s ≠ "" then some s else none
  | _ => none

/-- Python `round`: round half to even (banker's rounding), on the exact
rational carried by the float. -/
def pythonRound (q : ℚ) : ℤ :=
  let f : ℤ := ⌊q⌋
  let r : ℚ := q - (f : ℚ)
  if r < 1/2 then f
  else if 1/2 < r then f + 1
  else if f % 2 = 0 then f else f + 1

/-! ## src/app/zkp_utils.py -/

/-- One entry of `REPUTATION_TIERS`: `max = none` embeds `float('inf')`. -/
structure TierRange where
  minRep : Int
  maxRep : Option Int
  weightMultiplier : ℚ
deriving Repr

/-- `REPUTATION_TIERS` (zkp_utils.py): novice 0-50 weight 1.0,
intermediate 51-150 weight 1.5, expert 151-inf weight 2.0, in source order. -/
def REPUTATION_TIERS : List (String × TierRange) :=
  [("novice", ⟨0, some 50, 1⟩),
   ("intermediate", ⟨51, some 150, 3/2⟩),
   ("expert", ⟨151, none, 2⟩)]

/-- `tier_range["min"] <= reputation <= tier_range["max"]`. -/
def inTierRange (r : TierRange) (reputation : Int) : Bool :=
  r.minRep ≤ reputation &&
    (match r.maxRep with
     | some m => reputation ≤ m
     | none => true)

/-- `get_reputation_tier` (zkp_utils.py): first matching tier in dict order,
falling back to `"novice"`. -/
def get_reputation_tier (reputation : Int) : String :=
  match REPUTATION_TIERS.find? (fun p => inTierRange p.2 reputation) with
  | some p => p.1
  | none => "novice"

/-- `get_tier_weight` (zkp_utils.py):
`REPUTATION_TIERS.get(tier_name, {}).get("weight_multiplier", 1.0)`. -/
def get_tier_weight (tierName : String) : ℚ :=
  match REPUTATION_TIERS.find? (fun p => p.1 = tierName) with
  | some p => p.2.weightMultiplier
  | none => 1

/-! ## Schema validation (`validate_against_schema`, main.py) -/

/-- Result of one field check inside `validate_against_schema`.  The source
returns `(False, message)`; messages are abbreviated here, only presence and
position of failure are behaviourally relevant. -/
def asNum : Value → Option ℚ
  | .int n => some (n : ℚ)
  | .num q => some q
  | _ => none

/-- Check a single `(field_name, field_spec)` entry of `schema["fields"]`
against `data`, exactly following the branch structure of the source:
required-ness, the `value is None and default is None` escape, then the typed
branches (`string`, `integer`, `list[string]`, `object`, `enum`); an
unrecognised type only logs a warning and passes. -/
def validateField (data : List (String × Value)) (fieldName : String)
    (fieldSpec : Value) : Bool × Option String :=
  let spec := match fieldSpec with | .obj fs => fs | _ => []
  let fieldType := objGet spec "type"
  let required := (objGetD spec "required" (.bool false)).isTruthy
  let defaultValue := objGet spec "default"
  if required && !objHas data fieldName then
    (false, some "campo obbligatorio mancante")
  else
    match objGet data fieldName with
    | none => (true, none)
    | some value =>
      if (match value, defaultValue with
          | .null, none => true
          | .null, some .null => true
          | _, _ => false) then
        (true, none)
      else
        match fieldType with
        | some (.str "string") =>
          match value with
          | .str s =>
            let minLength := (objGet spec "min_length").bind asNum
            let maxLength := (objGet spec "max_length").bind asNum
            if minLength.any (fun m => (s.length : ℚ) < m) then
              (false, some "sotto min_length")
            else if maxLength.any (fun m => m < (s.length : ℚ)) then
              (false, some "sopra max_length")
            else (true, none)
          | _ => (false, some "deve essere string")
        | some (.str "integer") =>
          match value with
          | .int n =>
            let minVal := (objGet spec "min").bind asNum
            let maxVal := (objGet spec "max").bind asNum
            if minVal.any (fun m => (n : ℚ) < m) then
              (false, some "sotto min")
            else if maxVal.any (fun m => m < (n : ℚ)) then
              (false, some "sopra max")
            else (true, none)
          | _ => (false, some "deve essere integer")
        | some (.str "list[string]") =>
          match value with
          | .list xs =>
            if xs.all (fun x => match x with | .str _ => true | _ => false) then
              (true, none)
            else (false, some "elemento non string")
          | _ => (false, some "deve essere list")
        | some (.str "object") =>
          match value with
          | .obj _ => (true, none)
          | _ => (false, some "deve essere object")
        | some (.str "enum") =>
          let allowed := match objGet spec "values" with
            | some (.list vs) => vs
            | _ => []
          if allowed.any (fun v => Value.beq value v) then (true, none)
          else (false, some "valore non ammesso")
        | _ => (true, none)

/-- `validate_against_schema(data, schema_name, schemas)` (main.py): schema
must exist; every declared field is checked in declaration order; extra fields
are permitted. -/
def validate_against_schema (data : Value) (schemaName : String)
    (schemas : String → Option Value) : Bool × Option String :=
  match schemas schemaName with
  | none => (false, some "schema non trovato")
  | some schema =>
    let dataFields := match data with | .obj fs => fs | _ => []
    let fieldsDef := match schema with
      | .obj fs =>
        (match objGet fs "fields" with | some (.obj fd) => fd | _ => [])
      | _ => []
    let rec go : List (String × Value) → Bool × Option String
      | [] => (true, none)
      | (name, spec) :: rest =>
        match validateField dataFields name spec with
        | (true, _) => go rest
        | (false, msg) => (false, msg)
    go fieldsDef

/-! ## `apply_schema_defaults` (main.py) -/

/-- View a field spec value as its dict entries (non-dict specs behave as
empty, all `.get` calls returning their defaults). -/
def specFields : Value → List (String × Value)
  | .obj fs => fs
  | _ => []

/-- The `fields` dict of a schema document (empty if the schema is missing or
malformed). -/
def schemaFieldsDef (schemaName : String) (schemas : String → Option Value) :
    List (String × Value) :=
  match schemas schemaName with
  | none => []
  | some (.obj fs) =>
    (match objGet fs "fields" with | some (.obj fd) => fd | _ => [])
  | some _ => []

/-- The `for field_name, field_spec in fields_def.items()` loop of
`apply_schema_defaults`. -/
def applyDefaultsGo : List (String × Value) → List (String × Value) →
    List (String × Value)
  | [], result => result
  | (name, spec) :: rest, result =>
    if !objHas result name && objHas (specFields spec) "default" then
      applyDefaultsGo rest (result ++ [(name, objGetD (specFields spec) "default" .null)])
    else
      applyDefaultsGo rest result

/-- `apply_schema_defaults(data, schema_name, schemas)` (main.py): if the
schema is unknown return `data` unchanged; otherwise copy `data` and, for each
schema field in declaration order whose name is absent and whose spec carries
a `"default"` key, append the (deep-copied — the identity, in a pure setting)
default value. -/
def apply_schema_defaults (data : List (String × Value)) (schemaName : String)
    (schemas : String → Option Value) : List (String × Value) :=
  match schemas schemaName with
  | none => data
  | some _ => applyDefaultsGo (schemaFieldsDef schemaName schemas) data

/-- The default value `apply_schema_defaults` would supply for key `k`: the
first schema field named `k` whose spec declares a `"default"`. -/
def schemaDefaultFor (schemaName : String) (schemas : String → Option Value)
    (k : String) : Option Value :=
  match (schemaFieldsDef schemaName schemas).find?
      (fun p => p.1 = k && objHas (specFields p.2) "default") with
  | some p => some (objGetD (specFields p.2) "default" .null)
  | none => none

theorem objGet_append (l1 l2 : List (String × Value)) (k : String) :
    objGet (l1 ++ l2) k = (objGet l1 k).orElse (fun _ => objGet l2 k) := by
  induction l1 with
  | nil => simp [objGet, List.find?]
  | cons hd t ih =>
    obtain ⟨n, v⟩ := hd
    by_cases hnk : n = k
    · simp [objGet, List.find?, hnk]
    · simpa [objGet, List.find?, hnk] using ih

theorem objGet_singleton (n k : String) (v : Value) :
    objGet [(n, v)] k = if n = k then some v else none := by
  by_cases hnk : n = k <;> simp [objGet, List.find?, hnk]

theorem objGet_none_of_not_has (l : List (String × Value)) (k : String)
    (h : objHas l k = false) : objGet l k = none := by
  unfold objHas at h
  cases hg : objGet l k <;> simp [hg] at h ⊢

theorem applyDefaultsGo_objGet (fd : List (String × Value))
    (data : List (String × Value)) (k : String) :
    objGet (applyDefaultsGo fd data) k =
      (objGet data k).orElse (fun _ =>
        match fd.find? (fun p => p.1 = k && objHas (specFields p.2) "default") with
        | some p => some (objGetD (specFields p.2) "default" .null)
        | none => none) := by
  induction fd generalizing data with
  | nil =>
    simp only [applyDefaultsGo, List.find?]
    cases objGet data k <;> simp [Option.orElse]
  | cons hd rest ih =>
    obtain ⟨name, spec⟩ := hd
    simp only [applyDefaultsGo]
    by_cases hcond : !objHas data name && objHas (specFields spec) "default"
    · rw [if_pos hcond, ih, objGet_append, objGet_singleton]
      simp only [Bool.and_eq_true, Bool.not_eq_true'] at hcond
      obtain ⟨habs, hdef⟩ := hcond
      by_cases hnk : name = k
      · subst hnk
        have hnone : objGet data name = none := objGet_none_of_not_has _ _ habs
        simp [hnone, List.find?, hdef, Option.orElse]
      · have hpred : (decide (name = k) && objHas (specFields spec) "default") = false := by
          simp [hnk]
        cases objGet data k <;>
          simp [List.find?, hnk, hpred, Option.orElse]
    · rw [if_neg hcond, ih]
      simp only [Bool.and_eq_true, Bool.not_eq_true'] at hcond
      cases hg : objGet data k with
      | some v => simp [Option.orElse]
      | none =>
        have hpred : (decide (name = k) && objHas (specFields spec) "default") = false := by
          by_cases hnk : name = k
          · subst hnk
            have habs : objHas data name = false := by
              unfold objHas
              simp [hg]
            rcases Bool.eq_false_or_eq_true (objHas (specFields spec) "default") with hd | hd
            · exact absurd ⟨habs, hd⟩ hcond
            · simp [hd]
          · simp [hnk]
        simp [List.find?, hpred, Option.orElse]

theorem objHas_applyDefaultsGo_mono (fd : List (String × Value))
    (data : List (String × Value)) (k : String) (h : objHas data k = true) :
    objHas (applyDefaultsGo fd data) k = true := by
  unfold objHas at *
  rw [applyDefaultsGo_objGet]
  cases hg : objGet data k with
  | none => simp [hg] at h
  | some v => simp [hg, Option.orElse]

theorem objHas_applyDefaultsGo_default (fd : List (String × Value))
    (data : List (String × Value)) (name : String) (spec : Value)
    (hmem : (name, spec) ∈ fd) (hdef : objHas (specFields spec) "default" = true) :
    objHas (applyDefaultsGo fd data) name = true := by
  unfold objHas
  rw [applyDefaultsGo_objGet]
  cases hg : objGet data name with
  | some v => simp [Option.orElse]
  | none =>
    simp only [Option.orElse, Option.none_orElse]
    have : (fd.find? (fun p => p.1 = name && objHas (specFields p.2) "default")).isSome := by
      apply List.find?_isSome.mpr
      exact ⟨(name, spec), hmem, by simp [hdef]⟩
    cases hf : fd.find? (fun p => p.1 = name && objHas (specFields p.2) "default") with
    | none => simp [hf] at this
    | some p => simp

theorem applyDefaultsGo_of_all_present (fd : List (String × Value))
    (data : List (String × Value))
    (h : ∀ name spec, (name, spec) ∈ fd →
      objHas (specFields spec) "default" = true → objHas data name = true) :
    applyDefaultsGo fd data = data := by
  induction fd with
  | nil => rfl
  | cons hd rest ih =>
    obtain ⟨name, spec⟩ := hd
    simp only [applyDefaultsGo]
    by_cases hdef : objHas (specFields spec) "default"
    · have hpres := h name spec (List.mem_cons_self _ _) hdef
      rw [if_neg (by simp [hpres])]
      exact ih (fun n s hm hd => h n s (List.mem_cons_of_mem _ hm) hd)
    · rw [if_neg (by simp [hdef])]
      exact ih (fun n s hm hd => h n s (List.mem_cons_of_mem _ hm) hd)

/-- **C10.** `apply_schema_defaults` is a pure frame-preserving extension:
for every record, schema name and key, the result's value at a key present in
the input is the input's value (`Option.orElse` consults the input first);
a key absent from the input is filled exactly when some schema field of that
name declares a default (with that default value, deep copy being the
identity for pure values); and a second application returns the first result
unchanged.  Input records are Lean values, so the input itself is trivially
never mutated. -/
theorem apply_schema_defaults_frame (data : List (String × Value))
    (schemaName : String) (schemas : String → Option Value) (k : String) :
    objGet (apply_schema_defaults data schemaName schemas) k =
      (objGet data k).orElse (fun _ => schemaDefaultFor schemaName schemas k) ∧
    apply_schema_defaults (apply_schema_defaults data schemaName schemas)
      schemaName schemas = apply_schema_defaults data schemaName schemas := by
  constructor
  · unfold apply_schema_defaults schemaDefaultFor
    cases hs : schemas schemaName with
    | none =>
      unfold schemaFieldsDef
      rw [hs]
      cases objGet data k <;> simp [List.find?, Option.orElse]
    | some schema => rw [applyDefaultsGo_objGet]
  · unfold apply_schema_defaults
    cases hs : schemas schemaName with
    | none => rfl
    | some schema =>
      apply applyDefaultsGo_of_all_present
      intro name spec hmem hdef
      exact objHas_applyDefaultsGo_default _ _ _ _ hmem hdef

/-- **C9.** Reputation-tier classification is total: for every integer
reputation `get_reputation_tier` returns one of exactly `"novice"`,
`"intermediate"`, `"expert"`; negative reputations (outside all declared
ranges) fall back to `"novice"`; and `get_tier_weight` of the result is
exactly 1.0, 1.5 or 2.0, so anonymous-vote weighting is defined for every
input. -/
theorem reputation_tier_total (r : Int) :
    (get_reputation_tier r = "novice" ∨ get_reputation_tier r = "intermediate" ∨
      get_reputation_tier r = "expert") ∧
    (r < 0 → get_reputation_tier r = "novice") ∧
    (get_tier_weight (get_reputation_tier r) = 1 ∨
      get_tier_weight (get_reputation_tier r) = 3/2 ∨
      get_tier_weight (get_reputation_tier r) = 2) := by
  have hcase : get_reputation_tier r = "novice" ∨
      get_reputation_tier r = "intermediate" ∨ get_reputation_tier r = "expert" := by
    unfold get_reputation_tier REPUTATION_TIERS
    by_cases h1 : inTierRange ⟨0, some 50, 1⟩ r
    · simp [List.find?, h1]
    · by_cases h2 : inTierRange ⟨51, some 150, 3/2⟩ r
      · simp [List.find?, h1, h2]
      · by_cases h3 : inTierRange ⟨151, none, 2⟩ r
        · simp [List.find?, h1, h2, h3]
        · simp [List.find?, h1, h2, h3]
  refine ⟨hcase, ?_, ?_⟩
  · intro hneg
    unfold get_reputation_tier REPUTATION_TIERS
    have h1 : inTierRange ⟨0, some 50, 1⟩ r = false := by
      unfold inTierRange
      simp only [Bool.and_eq_false_iff]
      left
      simpa using not_le.mpr hneg
    have h2 : inTierRange ⟨51, some 150, 3/2⟩ r = false := by
      unfold inTierRange
      simp only [Bool.and_eq_false_iff]
      left
      simpa using not_le.mpr (lt_trans hneg (by norm_num))
    have h3 : inTierRange ⟨151, none, 2⟩ r = false := by
      unfold inTierRange
      simp only [Bool.and_eq_false_iff]
      left
      simpa using not_le.mpr (lt_trans hneg (by norm_num))
    simp [List.find?, h1, h2, h3]
  · rcases hcase with h | h | h <;> rw [h]
    · left; rfl
    · right; left; rfl
    · right; right; rfl

/-- Witness for `reputation_tier_total` at `r = -5`: the fallback hypothesis
is discharged concretely. -/
theorem reputation_tier_total_witness :
    get_reputation_tier (-5) = "novice" ∧ get_tier_weight "novice" = 1 := by
  have h := reputation_tier_total (-5)
  refine ⟨h.2.1 (by norm_num), rfl⟩

/-! ## CRDT merge engine (`receive_gossip`, main.py)

A channel snapshot as the merge engine sees it.  Python dicts whose keys are
looked up individually (`nodes`, `ratification_votes`, `tasks`, `proposals`,
`schemas`, `participants`) are embedded as functions — Python `==` on dicts is
content equality, which function extensionality mirrors — while
`execution_log` and `pending_operations`, Python lists compared order-
sensitively, stay lists.  Entity records are `Value` objects exactly as they
travel in the JSON payload. -/
structure ChannelStateC where
  nodes : String → Option Value
  executionLog : List Value
  ratificationVotes : String → Option (String → Option Value)
  pendingOperations : List Value
  config : Value
  configVersion : Int
  configUpdatedAt : String
  validatorSet : List Value
  validatorSetUpdatedAt : Value
  participants : String → Bool
  tasks : String → Option Value
  proposals : String → Option Value
  schemas : String → Option Value

theorem ChannelStateC.ext_iff' (a b : ChannelStateC)
    (h1 : a.nodes = b.nodes) (h2 : a.executionLog = b.executionLog)
    (h3 : a.ratificationVotes = b.ratificationVotes)
    (h4 : a.pendingOperations = b.pendingOperations) (h5 : a.config = b.config)
    (h6 : a.configVersion = b.configVersion)
    (h7 : a.configUpdatedAt = b.configUpdatedAt)
    (h8 : a.validatorSet = b.validatorSet)
    (h9 : a.validatorSetUpdatedAt = b.validatorSetUpdatedAt)
    (h10 : a.participants = b.participants) (h11 : a.tasks = b.tasks)
    (h12 : a.proposals = b.proposals) (h13 : a.schemas = b.schemas) : a = b := by
  cases a; cases b; simp_all

/-- `ndata.get("last_seen", 0)` of a node record, as the number the source
compares (`time.time()` floats). -/
def nodeLastSeen (v : Value) : ℚ :=
  (asNum (objGetD (specFields v) "last_seen" (.int 0))).getD 0

/-- Per-id LWW on `last_seen` over `global.nodes`, skipping the receiving
node's own id: `if nid != NODE_ID and (nid not in local or incoming newer)`. -/
def mergeNodes (selfId : String) (locl incoming : String → Option Value) :
    String → Option Value := fun nid =>
  if nid = selfId then locl nid
  else
    match incoming nid with
    | none => locl nid
    | some nd =>
      match locl nid with
      | none => some nd
      | some ld => if nodeLastSeen ld < nodeLastSeen nd then some nd else some ld

/-- `cmd.get("command_id")` under the source's truthiness guard
(`if command_id and ...`); the ids the source produces are uuid strings. -/
def cmdId (c : Value) : Option String := objGetTruthyStr (specFields c) "command_id"

/-- `op.get("proposal_id")` under the same truthiness guard. -/
def opPropId (c : Value) : Option String := objGetTruthyStr (specFields c) "proposal_id"

/-- The shared append-only-union loop of `execution_log` and
`pending_operations`: walk the incoming list, appending entries whose key is
truthy and not yet in the accumulated key set. -/
def dedupAppend (key : Value → Option String) :
    List Value → List String → List Value → List Value
  | acc, _, [] => acc
  | acc, ids, c :: rest =>
    match key c with
    | some cid =>
      if cid ∈ ids then dedupAppend key acc ids rest
      else dedupAppend key (acc ++ [c]) (cid :: ids) rest
    | none => dedupAppend key acc ids rest

/-- `cmd.get("ratified_at", "")`. -/
def ratifiedAt (c : Value) : String := objGetStr (specFields c) "ratified_at"

/-- The comparison `list.sort(key=lambda cmd: cmd.get("ratified_at", ""))`
sorts by. -/
def ratLE (a b : Value) : Prop := ratifiedAt a ≤ ratifiedAt b

instance : DecidableRel ratLE := fun a b =>
  inferInstanceAs (Decidable (ratifiedAt a ≤ ratifiedAt b))

instance : IsTotal Value ratLE := ⟨fun a b => le_total _ _⟩

instance : IsTrans Value ratLE := ⟨fun _ _ _ => le_trans⟩

/-- Stable sort by `ratified_at` (Python `list.sort` is stable, as is
insertion sort). -/
def sortByRatifiedAt (l : List Value) : List Value := l.insertionSort ratLE

/-- Merge of `execution_log`: set union by `command_id` (falsy ids are never
appended), then stable sort by `ratified_at`. -/
def mergeExecutionLog (localLog incomingLog : List Value) : List Value :=
  sortByRatifiedAt (dedupAppend cmdId localLog (localLog.filterMap cmdId) incomingLog)

/-- Merge of `pending_operations`: set union by `proposal_id`, no sort. -/
def mergePendingOperations (localOps incomingOps : List Value) : List Value :=
  dedupAppend opPropId localOps (localOps.filterMap opPropId) incomingOps

/-- Merge of `ratification_votes`: per-proposal dict union, the incoming
voter entries overriding (`local_ratifications[pid].update(votes)`, after a
`{}` default for unseen proposals). -/
def mergeRatificationVotes
    (locl incoming : String → Option (String → Option Value)) :
    String → Option (String → Option Value) := fun pid =>
  match incoming pid with
  | none => locl pid
  | some iv =>
    some (fun k =>
      match iv k with
      | some v => some v
      | none => match locl pid with
        | some lv => lv k
        | none => none)

/-- Python `incoming > local` on the two `validator_set_updated_at` values;
the source only ever stores ISO strings or `None` there. -/
def pyStrGt : Value → Value → Bool
  | .str x, .str y => y < x
  | _, _ => false

/-- `task.get("schema_name", "task_v1")`.  A non-string `schema_name` can
never name a stored schema, so it is mapped to the empty name. -/
def taskSchemaNameOf (t : Value) : String :=
  match objGet (specFields t) "schema_name" with
  | some (.str s) => s
  | none => "task_v1"
  | some _ => ""

/-- `prop.get("schema_name", "proposal_v1")`. -/
def propSchemaNameOf (p : Value) : String :=
  match objGet (specFields p) "schema_name" with
  | some (.str s) => s
  | none => "proposal_v1"
  | some _ => ""

/-- `entity.get("updated_at", "")`. -/
def updatedAtOf (v : Value) : String := objGetStr (specFields v) "updated_at"

/-- `prop.get("votes", {})` (the states the source builds always hold a dict
there). -/
def propVotes (p : Value) : List (String × Value) :=
  match objGet (specFields p) "votes" with
  | some (.obj vs) => vs
  | _ => []

/-- Per-id LWW on tasks by `updated_at`, schema-validating each incoming task
first and dropping invalid ones. -/
def mergeTasks (schemas : String → Option Value)
    (locl incoming : String → Option Value) : String → Option Value := fun tid =>
  match incoming tid with
  | none => locl tid
  | some it =>
    if (validate_against_schema it (taskSchemaNameOf it) schemas).1 then
      match locl tid with
      | none => some it
      | some lt => if updatedAtOf lt < updatedAtOf it then some it else some lt
    else locl tid

/-- Hybrid proposal merge: schema-validate; a new proposal is inserted as-is;
an existing one gets `merged_votes = local votes updated by incoming votes`,
then the whole record LWW-updated from the incoming one when its `updated_at`
is strictly newer, then `votes` written back. -/
def mergeProposals (schemas : String → Option Value)
    (locl incoming : String → Option Value) : String → Option Value := fun pid =>
  match incoming pid with
  | none => locl pid
  | some ip =>
    if (validate_against_schema ip (propSchemaNameOf ip) schemas).1 then
      match locl pid with
      | none => some ip
      | some lp =>
        let mergedVotes := objUpdate (propVotes lp) (propVotes ip)
        let base :=
          if updatedAtOf lp < updatedAtOf ip then objUpdate (specFields lp) (specFields ip)
          else specFields lp
        some (.obj (objSet base "votes" (.obj mergedVotes)))
    else locl pid

/-- The merge of one incoming channel snapshot into the local one
(`receive_gossip`, main.py, body under the state lock): for the global channel
the nodes / execution-log / ratification / pending-operations / config /
validator-set rules, for topical channels the participants union; then the
task and proposal rules for any channel.  `schemas` is
`network_state["global"]["schemas"]` (which this merge never modifies). -/
def mergeSnapshot (selfId : String) (schemas : String → Option Value)
    (isGlobal : Bool) (locl incoming : ChannelStateC) : ChannelStateC :=
  let st1 : ChannelStateC :=
    if isGlobal then
      { locl with
        nodes := mergeNodes selfId locl.nodes incoming.nodes
        executionLog := mergeExecutionLog locl.executionLog incoming.executionLog
        ratificationVotes :=
          mergeRatificationVotes locl.ratificationVotes incoming.ratificationVotes
        pendingOperations :=
          mergePendingOperations locl.pendingOperations incoming.pendingOperations
        config :=
          if locl.configVersion < incoming.configVersion then incoming.config
          else locl.config
        configVersion :=
          if locl.configVersion < incoming.configVersion then incoming.configVersion
          else locl.configVersion
        configUpdatedAt :=
          if locl.configVersion < incoming.configVersion then incoming.configUpdatedAt
          else locl.configUpdatedAt
        validatorSet :=
          if incoming.validatorSetUpdatedAt.isTruthy &&
              (!locl.validatorSetUpdatedAt.isTruthy ||
                pyStrGt incoming.validatorSetUpdatedAt locl.validatorSetUpdatedAt) then
            incoming.validatorSet
          else locl.validatorSet
        validatorSetUpdatedAt :=
          if incoming.validatorSetUpdatedAt.isTruthy &&
              (!locl.validatorSetUpdatedAt.isTruthy ||
                pyStrGt incoming.validatorSetUpdatedAt locl.validatorSetUpdatedAt) then
            incoming.validatorSetUpdatedAt
          else locl.validatorSetUpdatedAt }
    else
      { locl with
        participants := fun x => locl.participants x || incoming.participants x }
  { st1 with
    tasks := mergeTasks schemas st1.tasks incoming.tasks
    proposals := mergeProposals schemas st1.proposals incoming.proposals }

/-! ### Dictionary-operation lemmas used by the idempotence proof -/

theorem objGet_cons (n k : String) (v : Value) (t : List (String × Value)) :
    objGet ((n, v) :: t) k = if n = k then some v else objGet t k := by
  by_cases hnk : n = k <;> simp [objGet, List.find?, hnk]

theorem objHas_cons (n k : String) (v : Value) (t : List (String × Value)) :
    objHas ((n, v) :: t) k = (decide (n = k) || objHas t k) := by
  unfold objHas
  rw [objGet_cons]
  by_cases hnk : n = k <;> simp [hnk]

theorem objGet_map_replace (m : List (String × Value)) (k k' : String) (v : Value) :
    objGet (m.map (fun p => if p.1 = k' then (k', v) else p)) k =
      if k' = k then (if objHas m k' then some v else none) else objGet m k := by
  induction m with
  | nil =>
    by_cases h : k' = k <;> simp [objGet, List.find?, objHas, h]
  | cons hd t ih =>
    obtain ⟨n, w⟩ := hd
    simp only [List.map_cons]
    by_cases hn : n = k'
    · subst hn
      rw [if_pos rfl, objGet_cons, objHas_cons]
      by_cases hk : n = k
      · simp [hk]
      · rw [if_neg hk, ih, if_neg hk, objGet_cons, if_neg hk, if_neg hk]
    · rw [if_neg hn, objGet_cons, objHas_cons]
      by_cases hnk2 : n = k
      · subst hnk2
        have hk : k' ≠ n := fun hc => hn hc.symm
        simp [hk, objGet_cons]
      · rw [if_neg hnk2, ih, objGet_cons, if_neg hnk2]
        simp [hn]

theorem objGet_objSet (m : List (String × Value)) (k k' : String) (v : Value) :
    objGet (objSet m k' v) k = if k' = k then some v else objGet m k := by
  unfold objSet
  by_cases h : objHas m k'
  · rw [if_pos h, objGet_map_replace, h]
    simp
  · rw [if_neg h, objGet_append, objGet_singleton]
    by_cases hk : k' = k
    · subst hk
      have : objGet m k' = none := by
        unfold objHas at h
        cases hg : objGet m k' with
        | none => rfl
        | some w => rw [hg] at h; simp at h
      simp [this, Option.orElse]
    · cases objGet m k <;> simp [Option.orElse, hk]

theorem objSet_get (m : List (String × Value)) (k : String) (v : Value) :
    objGet (objSet m k v) k = some v := by
  rw [objGet_objSet, if_pos rfl]

theorem objSet_get_ne (m : List (String × Value)) (k k' : String) (v : Value)
    (h : k' ≠ k) : objGet (objSet m k' v) k = objGet m k := by
  rw [objGet_objSet, if_neg h]

theorem objHas_objSet_of_has (m : List (String × Value)) (k k' : String)
    (v : Value) (h : objHas m k = true) : objHas (objSet m k' v) k = true := by
  unfold objHas at *
  rw [objGet_objSet]
  by_cases hk : k' = k
  · simp [hk]
  · simpa [hk] using h

theorem mem_objSet (m : List (String × Value)) (k : String) (v : Value)
    (p : String × Value) (hp : p ∈ objSet m k v) : p ∈ m ∨ p = (k, v) := by
  unfold objSet at hp
  by_cases h : objHas m k
  · rw [if_pos h] at hp
    obtain ⟨q, hq, hfq⟩ := List.mem_map.mp hp
    by_cases hqk : q.1 = k
    · right; rw [← hfq]; simp [hqk]
    · left; rw [← hfq]; simpa [hqk] using hq
  · rw [if_neg h] at hp
    rcases List.mem_append.mp hp with h1 | h1
    · left; exact h1
    · right; simpa using h1

theorem entries_key_objSet (m : List (String × Value)) (k : String) (v : Value)
    (p : String × Value) (hp : p ∈ objSet m k v) (hk : p.1 = k)
    (hall : ∀ q ∈ m, q.1 = k → q.2 = v) : p.2 = v := by
  rcases mem_objSet m k v p hp with h | h
  · exact hall p h hk
  · rw [h]

theorem list_map_fix {α : Type} (l : List α) (f : α → α) (h : ∀ p ∈ l, f p = p) :
    l.map f = l := by
  induction l with
  | nil => rfl
  | cons hd t ih =>
    simp only [List.map_cons]
    rw [h hd (List.mem_cons_self _ _), ih (fun q hq => h q (List.mem_cons_of_mem _ hq))]

theorem objSet_eq_self (m : List (String × Value)) (k : String) (v : Value)
    (h1 : ∀ p ∈ m, p.1 = k → p.2 = v) (h2 : objHas m k = true) :
    objSet m k v = m := by
  unfold objSet
  rw [if_pos h2]
  apply list_map_fix
  intro p hp
  by_cases hpk : p.1 = k
  · have hv := h1 p hp hpk
    have : p = (k, v) := by
      obtain ⟨a, b⟩ := p
      simp only at hpk hv
      rw [hpk, hv]
    rw [this]; simp
  · simp [hpk]

theorem not_has_forall (m : List (String × Value)) (k : String)
    (h : objHas m k = false) : ∀ p ∈ m, p.1 ≠ k := by
  intro p hp hk
  unfold objHas objGet at h
  have : (m.find? (fun p => p.1 = k)).isSome := by
    apply List.find?_isSome.mpr
    exact ⟨p, hp, by simp [hk]⟩
  cases hf : m.find? (fun p => p.1 = k) with
  | none => rw [hf] at this; simp at this
  | some q => rw [hf] at h; simp at h

theorem objHas_of_mem (m : List (String × Value)) (k : String) (v : Value)
    (h : (k, v) ∈ m) : objHas m k = true := by
  unfold objHas objGet
  have : (m.find? (fun p => p.1 = k)).isSome := by
    apply List.find?_isSome.mpr
    exact ⟨(k, v), h, by simp⟩
  cases hf : m.find? (fun p => p.1 = k) with
  | none => rw [hf] at this; simp at this
  | some q => simp

theorem entries_key_objSet_self (m : List (String × Value)) (k : String)
    (v : Value) : ∀ p ∈ objSet m k v, p.1 = k → p.2 = v := by
  intro p hp hk
  unfold objSet at hp
  by_cases h : objHas m k
  · rw [if_pos h] at hp
    obtain ⟨q, hq, hfq⟩ := List.mem_map.mp hp
    by_cases hqk : q.1 = k
    · rw [← hfq]; simp [hqk]
    · rw [← hfq] at hk
      simp [hqk] at hk
  · rw [if_neg h] at hp
    rcases List.mem_append.mp hp with h1 | h1
    · exact absurd hk (not_has_forall m k (by simpa using h) p h1)
    · rw [List.mem_singleton.mp h1]

theorem nodup_key_unique (m : List (String × Value)) (k : String) (x : Value)
    (h : (m.map Prod.fst).Nodup) (hmem : (k, x) ∈ m) :
    ∀ p ∈ m, p.1 = k → p.2 = x := by
  induction m with
  | nil => intro p hp; simp at hp
  | cons q t ih =>
    intro p hp hk
    rcases List.mem_cons.mp hmem with hq | ht
    · rcases List.mem_cons.mp hp with hpq | hpt
      · rw [hpq, ← hq]
      · exfalso
        have hqk : q.1 = k := by rw [← hq]
        have : p.1 ∈ t.map Prod.fst := List.mem_map.mpr ⟨p, hpt, rfl⟩
        rw [hk, ← hqk] at this
        exact (List.nodup_cons.mp h).1 this
    · rcases List.mem_cons.mp hp with hpq | hpt
      · exfalso
        have : k ∈ t.map Prod.fst := List.mem_map.mpr ⟨(k, x), ht, rfl⟩
        rw [← hk, hpq] at this
        exact (List.nodup_cons.mp h).1 this
      · exact ih (List.nodup_cons.mp h).2 ht p hpt hk

theorem foldl_fixed {α β : Type} (f : α → β → α) (a : α) (l : List β)
    (h : ∀ b ∈ l, f a b = a) : l.foldl f a = a := by
  induction l with
  | nil => rfl
  | cons hd t ih =>
    simp only [List.foldl_cons, h hd (List.mem_cons_self _ _)]
    exact ih (fun b hb => h b (List.mem_cons_of_mem _ hb))

theorem objUpdate_self (v : List (String × Value))
    (h : (v.map Prod.fst).Nodup) : objUpdate v v = v := by
  unfold objUpdate
  apply foldl_fixed
  intro p hp
  obtain ⟨k, x⟩ := p
  exact objSet_eq_self v k x (nodup_key_unique v k x h hp) (objHas_of_mem v k x hp)

theorem objUpdate_cons (a : List (String × Value)) (k : String) (v : Value)
    (rest : List (String × Value)) :
    objUpdate a ((k, v) :: rest) = objUpdate (objSet a k v) rest := rfl

theorem objHas_objUpdate_of_has (b : List (String × Value)) :
    ∀ (a : List (String × Value)) (k : String), objHas a k = true →
      objHas (objUpdate a b) k = true := by
  induction b with
  | nil => intro a k h; exact h
  | cons hd rest ih =>
    obtain ⟨k', v'⟩ := hd
    intro a k h
    rw [objUpdate_cons]
    exact ih _ _ (objHas_objSet_of_has a k k' v' h)

theorem entries_key_objUpdate (b : List (String × Value)) :
    ∀ (a : List (String × Value)) (k : String) (v : Value),
      (∀ p ∈ a, p.1 = k → p.2 = v) → k ∉ b.map Prod.fst →
      ∀ p ∈ objUpdate a b, p.1 = k → p.2 = v := by
  induction b with
  | nil => intro a k v ha _; exact ha
  | cons hd rest ih =>
    obtain ⟨k', v'⟩ := hd
    intro a k v ha hb
    rw [objUpdate_cons]
    have hk' : k' ≠ k := by
      intro hc
      exact hb (by simp [hc])
    apply ih
    · intro p hp hk
      rcases mem_objSet a k' v' p hp with h1 | h1
      · exact ha p h1 hk
      · rw [h1] at hk
        exact absurd hk hk'
    · intro hc
      exact hb (by simp [hc])

theorem objUpdate_objUpdate_self (b : List (String × Value)) :
    ∀ (a : List (String × Value)), (b.map Prod.fst).Nodup →
      objUpdate (objUpdate a b) b = objUpdate a b := by
  induction b with
  | nil => intro a _; rfl
  | cons hd rest ih =>
    obtain ⟨k, v⟩ := hd
    intro a hb
    have hb2 : (k :: rest.map Prod.fst).Nodup := by
      simpa only [List.map_cons] using hb
    have hknotin : k ∉ rest.map Prod.fst := (List.nodup_cons.mp hb2).1
    have hrest : (rest.map Prod.fst).Nodup := (List.nodup_cons.mp hb2).2
    rw [objUpdate_cons, objUpdate_cons]
    have hset : objSet (objUpdate (objSet a k v) rest) k v
        = objUpdate (objSet a k v) rest := by
      apply objSet_eq_self
      · exact entries_key_objUpdate rest (objSet a k v) k v
          (entries_key_objSet_self a k v) hknotin
      · apply objHas_objUpdate_of_has
        unfold objHas
        rw [objSet_get]
        rfl
    rw [hset]
    exact ih _ hrest

theorem objGet_objUpdate_not_mem (b : List (String × Value)) :
    ∀ (a : List (String × Value)) (k : String), k ∉ b.map Prod.fst →
      objGet (objUpdate a b) k = objGet a k := by
  induction b with
  | nil => intro a k _; rfl
  | cons hd rest ih =>
    obtain ⟨k', v'⟩ := hd
    intro a k h
    rw [objUpdate_cons]
    have hk' : k' ≠ k := fun hc => h (by simp [hc])
    rw [ih _ _ (fun hc => h (by simp [hc])), objSet_get_ne _ _ _ _ hk']

theorem objGet_objUpdate_of_get (b : List (String × Value)) :
    ∀ (a : List (String × Value)) (k : String) (v : Value),
      (b.map Prod.fst).Nodup → objGet b k = some v →
      objGet (objUpdate a b) k = some v := by
  induction b with
  | nil => intro a k v _ h; simp [objGet, List.find?] at h
  | cons hd rest ih =>
    obtain ⟨k', v'⟩ := hd
    intro a k v hb h
    have hb2 : (k' :: rest.map Prod.fst).Nodup := by
      simpa only [List.map_cons] using hb
    rw [objUpdate_cons]
    rw [objGet_cons] at h
    by_cases hk : k' = k
    · rw [if_pos hk] at h
      have hknotin : k ∉ rest.map Prod.fst := by
        rw [← hk]
        exact (List.nodup_cons.mp hb2).1
      rw [objGet_objUpdate_not_mem rest _ k hknotin, ← hk, objSet_get]
      exact h
    · rw [if_neg hk] at h
      exact ih _ _ _ (List.nodup_cons.mp hb2).2 h

theorem objSet_objSet (m : List (String × Value)) (k : String) (v : Value) :
    objSet (objSet m k v) k v = objSet m k v := by
  apply objSet_eq_self
  · exact entries_key_objSet_self m k v
  · unfold objHas
    rw [objSet_get]
    rfl

/-! ### Idempotence of the per-entity merge rules -/

theorem dedupAppend_extends (key : Value → Option String) (rest : List Value) :
    ∀ (acc : List Value) (ids : List String),
      ∃ extra, dedupAppend key acc ids rest = acc ++ extra := by
  induction rest with
  | nil => intro acc ids; exact ⟨[], by simp [dedupAppend]⟩
  | cons c r ih =>
    intro acc ids
    unfold dedupAppend
    cases hk : key c with
    | none => exact ih acc ids
    | some cid =>
      dsimp only
      by_cases hmem : cid ∈ ids
      · rw [if_pos hmem]; exact ih acc ids
      · rw [if_neg hmem]
        obtain ⟨e2, he2⟩ := ih (acc ++ [c]) (cid :: ids)
        exact ⟨[c] ++ e2, by rw [he2, List.append_assoc]⟩

theorem keys_sub_dedupAppend (key : Value → Option String) (rest : List Value) :
    ∀ (acc : List Value) (ids : List String),
      (∀ x ∈ ids, x ∈ acc.filterMap key) →
      ∀ c ∈ rest, ∀ cid, key c = some cid →
        cid ∈ (dedupAppend key acc ids rest).filterMap key := by
  induction rest with
  | nil => intro acc ids _ c hc; simp at hc
  | cons c0 r ih =>
    intro acc ids hids c hc cid hcid
    unfold dedupAppend
    cases hk : key c0 with
    | none =>
      rcases List.mem_cons.mp hc with hc0 | hcr
      · rw [hc0] at hcid; rw [hcid] at hk; exact absurd hk (by simp)
      · exact ih acc ids hids c hcr cid hcid
    | some cid0 =>
      dsimp only
      by_cases hmem : cid0 ∈ ids
      · rw [if_pos hmem]
        rcases List.mem_cons.mp hc with hc0 | hcr
        · have hcc : cid = cid0 := by
            rw [hc0] at hcid
            rw [hcid] at hk
            injection hk
          obtain ⟨extra, hext⟩ := dedupAppend_extends key r acc ids
          rw [hext, List.filterMap_append]
          exact List.mem_append.mpr (Or.inl (hcc ▸ hids cid0 hmem))
        · exact ih acc ids hids c hcr cid hcid
      · rw [if_neg hmem]
        have hids' : ∀ x ∈ cid0 :: ids, x ∈ (acc ++ [c0]).filterMap key := by
          intro x hx
          rw [List.filterMap_append]
          rcases List.mem_cons.mp hx with hx0 | hxi
          · exact List.mem_append.mpr (Or.inr (by simp [hk, hx0]))
          · exact List.mem_append.mpr (Or.inl (hids x hxi))
        rcases List.mem_cons.mp hc with hc0 | hcr
        · have hcc : cid = cid0 := by
            rw [hc0] at hcid
            rw [hcid] at hk
            injection hk
          obtain ⟨extra, hext⟩ := dedupAppend_extends key r (acc ++ [c0]) (cid0 :: ids)
          rw [hext, List.filterMap_append]
          exact List.mem_append.mpr
            (Or.inl (hcc ▸ hids' cid0 (List.mem_cons_self _ _)))
        · exact ih (acc ++ [c0]) (cid0 :: ids) hids' c hcr cid hcid

theorem dedupAppend_noop (key : Value → Option String) (rest : List Value) :
    ∀ (acc : List Value) (ids : List String),
      (∀ c ∈ rest, ∀ cid, key c = some cid → cid ∈ ids) →
      dedupAppend key acc ids rest = acc := by
  induction rest with
  | nil => intro acc ids _; rfl
  | cons c0 r ih =>
    intro acc ids h
    unfold dedupAppend
    cases hk : key c0 with
    | none => exact ih acc ids (fun c hc => h c (List.mem_cons_of_mem _ hc))
    | some cid0 =>
      dsimp only
      rw [if_pos (h c0 (List.mem_cons_self _ _) cid0 hk)]
      exact ih acc ids (fun c hc => h c (List.mem_cons_of_mem _ hc))

theorem mergeExecutionLog_idem (localLog incomingLog : List Value) :
    mergeExecutionLog (mergeExecutionLog localLog incomingLog) incomingLog =
      mergeExecutionLog localLog incomingLog := by
  unfold mergeExecutionLog
  set R0 := dedupAppend cmdId localLog (localLog.filterMap cmdId) incomingLog with hR0
  have hmem : ∀ c ∈ incomingLog, ∀ cid, cmdId c = some cid →
      cid ∈ (sortByRatifiedAt R0).filterMap cmdId := by
    intro c hc cid hcid
    have h0 : cid ∈ R0.filterMap cmdId :=
      keys_sub_dedupAppend cmdId incomingLog localLog (localLog.filterMap cmdId)
        (fun x hx => hx) c hc cid hcid
    have hperm : (sortByRatifiedAt R0).Perm R0 := List.perm_insertionSort ratLE R0
    exact (hperm.filterMap cmdId).mem_iff.mpr h0
  rw [dedupAppend_noop cmdId incomingLog (sortByRatifiedAt R0)
    ((sortByRatifiedAt R0).filterMap cmdId) hmem]
  exact List.Sorted.insertionSort_eq (List.sorted_insertionSort ratLE R0)

theorem mergePendingOperations_idem (localOps incomingOps : List Value) :
    mergePendingOperations (mergePendingOperations localOps incomingOps)
      incomingOps = mergePendingOperations localOps incomingOps := by
  unfold mergePendingOperations
  set P0 := dedupAppend opPropId localOps (localOps.filterMap opPropId) incomingOps
    with hP0
  apply dedupAppend_noop
  intro c hc cid hcid
  exact keys_sub_dedupAppend opPropId incomingOps localOps
    (localOps.filterMap opPropId) (fun x hx => hx) c hc cid hcid

theorem mergeNodes_idem (selfId : String) (locl incoming : String → Option Value) :
    mergeNodes selfId (mergeNodes selfId locl incoming) incoming =
      mergeNodes selfId locl incoming := by
  funext nid
  unfold mergeNodes
  by_cases hself : nid = selfId
  · simp [hself]
  · rw [if_neg hself, if_neg hself]
    cases hi : incoming nid with
    | none => rfl
    | some nd =>
      cases hl : locl nid with
      | none => simp [lt_irrefl]
      | some ld =>
        by_cases hlt : nodeLastSeen ld < nodeLastSeen nd
        · simp [hlt, lt_irrefl]
        · simp [hlt]

theorem mergeRatificationVotes_idem
    (locl incoming : String → Option (String → Option Value)) :
    mergeRatificationVotes (mergeRatificationVotes locl incoming) incoming =
      mergeRatificationVotes locl incoming := by
  funext pid
  unfold mergeRatificationVotes
  cases hi : incoming pid with
  | none => rfl
  | some iv =>
    dsimp only
    congr 1
    funext k
    cases hk : iv k with
    | some v => simp [hk]
    | none => simp [hk]

theorem mergeTasks_idem (schemas : String → Option Value)
    (locl incoming : String → Option Value) :
    mergeTasks schemas (mergeTasks schemas locl incoming) incoming =
      mergeTasks schemas locl incoming := by
  funext tid
  unfold mergeTasks
  cases hi : incoming tid with
  | none => rfl
  | some it =>
    dsimp only
    by_cases hv : (validate_against_schema it (taskSchemaNameOf it) schemas).1
    · rw [if_pos hv, if_pos hv]
      cases hl : locl tid with
      | none => simp [lt_irrefl]
      | some lt =>
        by_cases hlt : updatedAtOf lt < updatedAtOf it
        · simp [hlt, lt_irrefl]
        · simp [hlt]
    · rw [if_neg hv, if_neg hv]

theorem objGet_mem (m : List (String × Value)) (k : String) (v : Value)
    (h : objGet m k = some v) : (k, v) ∈ m := by
  unfold objGet at h
  cases hf : m.find? (fun p => p.1 = k) with
  | none => rw [hf] at h; simp at h
  | some q =>
    rw [hf] at h
    have hq : q ∈ m := List.mem_of_find?_eq_some hf
    have hqk : q.1 = k := by
      have := List.find?_some hf
      simpa using this
    have hqv : q.2 = v := by injection h
    have : q = (k, v) := by
      obtain ⟨a, b⟩ := q
      simp only at hqk hqv
      rw [hqk, hqv]
    rwa [this] at hq

theorem string_not_lt_empty (s : String) : ¬ s < "" := by
  intro h
  have h2 : s.toList < ([] : List Char) := String.lt_iff_toList_lt.mp h
  generalize hgen : s.toList = l at h2
  cases h2

theorem objGetStr_get_of_ne_empty (m : List (String × Value)) (k : String)
    (h : objGetStr m k ≠ "") : objGet m k = some (.str (objGetStr m k)) := by
  unfold objGetStr at *
  cases hg : objGet m k with
  | none => rw [hg] at h; simp at h
  | some v =>
    rw [hg] at h
    cases v with
    | str s => rfl
    | null => simp at h
    | bool b => simp at h
    | int n => simp at h
    | num q => simp at h
    | list xs => simp at h
    | obj fs => simp at h

theorem objGetStr_objSet_ne (m : List (String × Value)) (k k' : String)
    (v : Value) (h : k' ≠ k) : objGetStr (objSet m k' v) k = objGetStr m k := by
  unfold objGetStr
  rw [objSet_get_ne _ _ _ _ h]

/-- The shape every proposal record actually gossiped by the source has: a
dict with duplicate-free keys whose `votes` entry is a dict with
duplicate-free keys (the API initialises `votes` to `{}` at creation). -/
def PropWF (p : Value) : Prop :=
  ∃ fields vs, p = Value.obj fields ∧ (fields.map Prod.fst).Nodup ∧
    objGet fields "votes" = some (Value.obj vs) ∧ (vs.map Prod.fst).Nodup

theorem mergeProposals_idem (schemas : String → Option Value)
    (locl incoming : String → Option Value)
    (hWF : ∀ pid p, incoming pid = some p → PropWF p) :
    mergeProposals schemas (mergeProposals schemas locl incoming) incoming =
      mergeProposals schemas locl incoming := by
  funext pid
  unfold mergeProposals
  cases hi : incoming pid with
  | none => rfl
  | some ip =>
    dsimp only
    obtain ⟨fields, vs, hip, hnf, hvotes, hnvs⟩ := hWF pid ip hi
    by_cases hv : (validate_against_schema ip (propSchemaNameOf ip) schemas).1
    · rw [if_pos hv, if_pos hv]
      have hpv : propVotes ip = vs := by
        rw [hip]; unfold propVotes specFields; rw [hvotes]
      have hhasvotes : objHas fields "votes" = true := by
        unfold objHas; rw [hvotes]; rfl
      cases hl : locl pid with
      | none =>
        dsimp only
        rw [if_neg (lt_irrefl _), hpv, objUpdate_self vs hnvs, hip]
        show some (Value.obj (objSet (specFields (Value.obj fields)) "votes"
          (Value.obj vs))) = some (Value.obj fields)
        unfold specFields
        rw [objSet_eq_self fields "votes" (Value.obj vs)
          (nodup_key_unique fields "votes" (Value.obj vs) hnf (objGet_mem _ _ _ hvotes))
          hhasvotes]
      | some lp =>
        dsimp only
        set mv := objUpdate (propVotes lp) (propVotes ip) with hmv
        set base := if updatedAtOf lp < updatedAtOf ip then
          objUpdate (specFields lp) (specFields ip) else specFields lp with hbase
        set lp' := Value.obj (objSet base "votes" (Value.obj mv)) with hlp'
        have hpv' : propVotes lp' = mv := by
          rw [hlp']
          unfold propVotes specFields
          rw [objSet_get]
        have huat : updatedAtOf lp' = objGetStr base "updated_at" := by
          rw [hlp']
          unfold updatedAtOf specFields
          exact objGetStr_objSet_ne _ _ _ _ (by decide)
        have hguard : ¬ updatedAtOf lp' < updatedAtOf ip := by
          rw [huat, hbase]
          by_cases hg : updatedAtOf lp < updatedAtOf ip
          · rw [if_pos hg]
            have hne : updatedAtOf ip ≠ "" := by
              intro hc
              rw [hc] at hg
              exact string_not_lt_empty _ hg
            have hgetip : objGet (specFields ip) "updated_at"
                = some (.str (updatedAtOf ip)) := by
              unfold updatedAtOf at *
              exact objGetStr_get_of_ne_empty _ _ hne
            have : objGet (objUpdate (specFields lp) (specFields ip)) "updated_at"
                = some (.str (updatedAtOf ip)) := by
              apply objGet_objUpdate_of_get
              · rw [hip]; unfold specFields; exact hnf
              · exact hgetip
            unfold objGetStr
            rw [this]
            exact lt_irrefl _
          · rw [if_neg hg]
            exact hg
        have hmv2 : mv = objUpdate (propVotes lp) vs := by rw [hmv, hpv]
        rw [if_neg hguard, hpv', hpv, hmv2,
          objUpdate_objUpdate_self vs (propVotes lp) hnvs, ← hmv2, hlp']
        show some (Value.obj (objSet (specFields
          (Value.obj (objSet base "votes" (Value.obj mv)))) "votes"
          (Value.obj mv))) = _
        unfold specFields
        rw [objSet_objSet]
    · rw [if_neg hv, if_neg hv]

theorem pyStrGt_irrefl (v : Value) : pyStrGt v v = false := by
  cases v with
  | str s => simp [pyStrGt]
  | null => rfl
  | bool b => rfl
  | int n => rfl
  | num q => rfl
  | list xs => rfl
  | obj fs => rfl

theorem mS_nodes (selfId : String) (schemas : String → Option Value)
    (isGlobal : Bool) (A B : ChannelStateC) :
    (mergeSnapshot selfId schemas isGlobal A B).nodes =
      if isGlobal then mergeNodes selfId A.nodes B.nodes else A.nodes := by
  cases isGlobal <;> rfl

theorem mS_log (selfId : String) (schemas : String → Option Value)
    (isGlobal : Bool) (A B : ChannelStateC) :
    (mergeSnapshot selfId schemas isGlobal A B).executionLog =
      if isGlobal then mergeExecutionLog A.executionLog B.executionLog
      else A.executionLog := by
  cases isGlobal <;> rfl

theorem mS_ratif (selfId : String) (schemas : String → Option Value)
    (isGlobal : Bool) (A B : ChannelStateC) :
    (mergeSnapshot selfId schemas isGlobal A B).ratificationVotes =
      if isGlobal then mergeRatificationVotes A.ratificationVotes B.ratificationVotes
      else A.ratificationVotes := by
  cases isGlobal <;> rfl

theorem mS_pending (selfId : String) (schemas : String → Option Value)
    (isGlobal : Bool) (A B : ChannelStateC) :
    (mergeSnapshot selfId schemas isGlobal A B).pendingOperations =
      if isGlobal then mergePendingOperations A.pendingOperations B.pendingOperations
      else A.pendingOperations := by
  cases isGlobal <;> rfl

theorem mS_config (selfId : String) (schemas : String → Option Value)
    (isGlobal : Bool) (A B : ChannelStateC) :
    (mergeSnapshot selfId schemas isGlobal A B).config =
      if isGlobal then
        (if A.configVersion < B.configVersion then B.config else A.config)
      else A.config := by
  cases isGlobal <;> rfl

theorem mS_configVersion (selfId : String) (schemas : String → Option Value)
    (isGlobal : Bool) (A B : ChannelStateC) :
    (mergeSnapshot selfId schemas isGlobal A B).configVersion =
      if isGlobal then
        (if A.configVersion < B.configVersion then B.configVersion
         else A.configVersion)
      else A.configVersion := by
  cases isGlobal <;> rfl

theorem mS_configUpdatedAt (selfId : String) (schemas : String → Option Value)
    (isGlobal : Bool) (A B : ChannelStateC) :
    (mergeSnapshot selfId schemas isGlobal A B).configUpdatedAt =
      if isGlobal then
        (if A.configVersion < B.configVersion then B.configUpdatedAt
         else A.configUpdatedAt)
      else A.configUpdatedAt := by
  cases isGlobal <;> rfl

theorem mS_validatorSet (selfId : String) (schemas : String → Option Value)
    (isGlobal : Bool) (A B : ChannelStateC) :
    (mergeSnapshot selfId schemas isGlobal A B).validatorSet =
      if isGlobal then
        (if B.validatorSetUpdatedAt.isTruthy &&
            (!A.validatorSetUpdatedAt.isTruthy ||
              pyStrGt B.validatorSetUpdatedAt A.validatorSetUpdatedAt) then
          B.validatorSet
         else A.validatorSet)
      else A.validatorSet := by
  cases isGlobal <;> rfl

theorem mS_vsat (selfId : String) (schemas : String → Option Value)
    (isGlobal : Bool) (A B : ChannelStateC) :
    (mergeSnapshot selfId schemas isGlobal A B).validatorSetUpdatedAt =
      if isGlobal then
        (if B.validatorSetUpdatedAt.isTruthy &&
            (!A.validatorSetUpdatedAt.isTruthy ||
              pyStrGt B.validatorSetUpdatedAt A.validatorSetUpdatedAt) then
          B.validatorSetUpdatedAt
         else A.validatorSetUpdatedAt)
      else A.validatorSetUpdatedAt := by
  cases isGlobal <;> rfl

theorem mS_participants (selfId : String) (schemas : String → Option Value)
    (isGlobal : Bool) (A B : ChannelStateC) :
    (mergeSnapshot selfId schemas isGlobal A B).participants =
      if isGlobal then A.participants
      else fun x => A.participants x || B.participants x := by
  cases isGlobal <;> rfl

theorem mS_tasks (selfId : String) (schemas : String → Option Value)
    (isGlobal : Bool) (A B : ChannelStateC) :
    (mergeSnapshot selfId schemas isGlobal A B).tasks =
      mergeTasks schemas A.tasks B.tasks := by
  cases isGlobal <;> rfl

theorem mS_proposals (selfId : String) (schemas : String → Option Value)
    (isGlobal : Bool) (A B : ChannelStateC) :
    (mergeSnapshot selfId schemas isGlobal A B).proposals =
      mergeProposals schemas A.proposals B.proposals := by
  cases isGlobal <;> rfl

theorem mS_schemas (selfId : String) (schemas : String → Option Value)
    (isGlobal : Bool) (A B : ChannelStateC) :
    (mergeSnapshot selfId schemas isGlobal A B).schemas = A.schemas := by
  cases isGlobal <;> rfl

/-- Well-formedness the amended idempotence claim assumes of the incoming
snapshot: every proposal record carries a `votes` dict (with duplicate-free
keys), as every proposal the source itself creates does. -/
def SnapshotWF (s : ChannelStateC) : Prop :=
  ∀ pid p, s.proposals pid = some p → PropWF p

/-- **C1 (amended).** Merging the same incoming snapshot a second time leaves
the state unchanged — `merge(merge(A, B), B) == merge(A, B)` — provided every
proposal record of the incoming snapshot carries a `votes` dict, as every
proposal the source creates does.  (Without that proviso the law fails: see
the counterexample, where the second merge adds a `votes: {}` key that the
first did not.)  All other rules — per-id LWW on nodes by `last_seen`, on
tasks and proposals by `updated_at`, vote-map union, participants union,
`pending_operations` and `ratification_votes` union, `execution_log`
append-only union by `command_id` then stable sort by `ratified_at`, LWW on
`config` by `config_version` and on `validator_set` by its timestamp — are
idempotent unconditionally. -/
theorem mergeSnapshot_idem (selfId : String) (schemas : String → Option Value)
    (isGlobal : Bool) (A B : ChannelStateC) (hB : SnapshotWF B) :
    mergeSnapshot selfId schemas isGlobal
      (mergeSnapshot selfId schemas isGlobal A B) B =
      mergeSnapshot selfId schemas isGlobal A B := by
  set M := mergeSnapshot selfId schemas isGlobal A B with hM
  apply ChannelStateC.ext_iff'
  · rw [mS_nodes, hM, mS_nodes]
    cases isGlobal with
    | false => simp
    | true => simp [mergeNodes_idem]
  · rw [mS_log, hM, mS_log]
    cases isGlobal with
    | false => simp
    | true => simp [mergeExecutionLog_idem]
  · rw [mS_ratif, hM, mS_ratif]
    cases isGlobal with
    | false => simp
    | true => simp [mergeRatificationVotes_idem]
  · rw [mS_pending, hM, mS_pending]
    cases isGlobal with
    | false => simp
    | true => simp [mergePendingOperations_idem]
  · rw [mS_config, hM, mS_config, mS_configVersion]
    cases isGlobal with
    | false => simp
    | true =>
      simp only [if_true]
      by_cases h : A.configVersion < B.configVersion <;> simp [h, lt_irrefl]
  · rw [mS_configVersion, hM, mS_configVersion]
    cases isGlobal with
    | false => simp
    | true =>
      simp only [if_true]
      by_cases h : A.configVersion < B.configVersion <;> simp [h, lt_irrefl]
  · rw [mS_configUpdatedAt, hM, mS_configUpdatedAt, mS_configVersion]
    cases isGlobal with
    | false => simp
    | true =>
      simp only [if_true]
      by_cases h : A.configVersion < B.configVersion <;> simp [h, lt_irrefl]
  · rw [mS_validatorSet, hM, mS_validatorSet, mS_vsat]
    cases isGlobal with
    | false => simp
    | true =>
      simp only [if_true]
      by_cases h : (B.validatorSetUpdatedAt.isTruthy &&
          (!A.validatorSetUpdatedAt.isTruthy ||
            pyStrGt B.validatorSetUpdatedAt A.validatorSetUpdatedAt)) = true
      · simp [h, pyStrGt_irrefl]
      · simp [h]
  · rw [mS_vsat, hM, mS_vsat]
    cases isGlobal with
    | false => simp
    | true =>
      simp only [if_true]
      by_cases h : (B.validatorSetUpdatedAt.isTruthy &&
          (!A.validatorSetUpdatedAt.isTruthy ||
            pyStrGt B.validatorSetUpdatedAt A.validatorSetUpdatedAt)) = true
      · simp [h, pyStrGt_irrefl]
      · simp [h]
  · rw [mS_participants, hM, mS_participants]
    cases isGlobal with
    | true => simp
    | false =>
      funext x
      by_cases hx : A.participants x <;> simp [hx]
  · rw [mS_tasks, hM, mS_tasks]
    exact mergeTasks_idem schemas A.tasks B.tasks
  · rw [mS_proposals, hM, mS_proposals]
    exact mergeProposals_idem schemas A.proposals B.proposals hB
  · rw [mS_schemas, hM, mS_schemas]

/-! ### Genesis schemas (network_state initialisation, main.py) -/

/-- The built-in `task_v1` schema document.  The genesis `created_at` /
`updated_at` are wall-clock stamps in the source; they are never read by
validation and are embedded as empty strings. -/
def genesisTaskV1Schema : Value := .obj [
  ("schema_name", .str "task_v1"), ("version", .int 1),
  ("description", .str "Standard task schema"),
  ("fields", .obj [
    ("title", .obj [("type", .str "string"), ("required", .bool true),
      ("min_length", .int 1), ("max_length", .int 200)]),
    ("reward", .obj [("type", .str "integer"), ("required", .bool false),
      ("min", .int 0), ("default", .int 0)]),
    ("tags", .obj [("type", .str "list[string]"), ("required", .bool false),
      ("default", .list [])]),
    ("description", .obj [("type", .str "string"), ("required", .bool false),
      ("default", .str "")]),
    ("assignee", .obj [("type", .str "string"), ("required", .bool false),
      ("default", .null)]),
    ("status", .obj [("type", .str "enum"), ("required", .bool false),
      ("values", .list [.str "open", .str "claimed", .str "in_progress",
        .str "completed"]),
      ("default", .str "open")]),
    ("required_tools", .obj [("type", .str "list[string]"),
      ("required", .bool false), ("default", .list [])])]),
  ("created_at", .str ""), ("updated_at", .str "")]

/-- The built-in `proposal_v1` schema document.  Note that no `votes` field is
declared, so a proposal record without a `votes` key passes validation. -/
def genesisProposalV1Schema : Value := .obj [
  ("schema_name", .str "proposal_v1"), ("version", .int 1),
  ("description", .str "Standard proposal schema"),
  ("fields", .obj [
    ("title", .obj [("type", .str "string"), ("required", .bool true),
      ("min_length", .int 1), ("max_length", .int 200)]),
    ("description", .obj [("type", .str "string"), ("required", .bool false),
      ("default", .str "")]),
    ("proposal_type", .obj [("type", .str "enum"), ("required", .bool true),
      ("values", .list [.str "generic", .str "config_change",
        .str "network_operation", .str "command"]),
      ("default", .str "generic")]),
    ("params", .obj [("type", .str "object"), ("required", .bool false),
      ("default", .obj [])]),
    ("command", .obj [("type", .str "object"), ("required", .bool false),
      ("default", .obj [])]),
    ("tags", .obj [("type", .str "list[string]"), ("required", .bool false),
      ("default", .list [])])]),
  ("created_at", .str ""), ("updated_at", .str "")]

/-- The built-in `task_v2` (auction-capable) schema document. -/
def genesisTaskV2Schema : Value := .obj [
  ("schema_name", .str "task_v2"), ("version", .int 2),
  ("description", .str "Task schema with auction mechanism"),
  ("fields", .obj [
    ("title", .obj [("type", .str "string"), ("required", .bool true),
      ("min_length", .int 1), ("max_length", .int 200)]),
    ("tags", .obj [("type", .str "list[string]"), ("required", .bool false),
      ("default", .list [])]),
    ("description", .obj [("type", .str "string"), ("required", .bool false),
      ("default", .str "")]),
    ("assignee", .obj [("type", .str "string"), ("required", .bool false),
      ("default", .null)]),
    ("status", .obj [("type", .str "enum"), ("required", .bool false),
      ("values", .list [.str "open", .str "auction_open", .str "auction_closed",
        .str "claimed", .str "in_progress", .str "completed"]),
      ("default", .str "open")]),
    ("required_tools", .obj [("type", .str "list[string]"),
      ("required", .bool false), ("default", .list [])]),
    ("auction", .obj [("type", .str "object"), ("required", .bool false),
      ("default", .obj [("enabled", .bool false), ("status", .str "closed"),
        ("max_reward", .int 0), ("deadline", .null), ("bids", .obj []),
        ("selected_bid", .null)]),
      ("fields", .obj [
        ("enabled", .obj [("type", .str "boolean"), ("required", .bool true)]),
        ("status", .obj [("type", .str "enum"), ("required", .bool true),
          ("values", .list [.str "open", .str "closed", .str "finalized"])]),
        ("max_reward", .obj [("type", .str "integer"), ("required", .bool true),
          ("min", .int 0)]),
        ("deadline", .obj [("type", .str "string"), ("required", .bool false)]),
        ("bids", .obj [("type", .str "object"), ("required", .bool false),
          ("default", .obj [])]),
        ("selected_bid", .obj [("type", .str "string"),
          ("required", .bool false), ("default", .null)])])])]),
  ("created_at", .str ""), ("updated_at", .str "")]

/-- `network_state["global"]["schemas"]` at genesis. -/
def genesisSchemas : String → Option Value := fun name =>
  if name = "task_v1" then some genesisTaskV1Schema
  else if name = "proposal_v1" then some genesisProposalV1Schema
  else if name = "task_v2" then some genesisTaskV2Schema
  else none

/-- A channel snapshot with nothing in it (the shape
`network_state.setdefault` creates, with the global-only fields at their
genesis defaults). -/
def emptyChannelState : ChannelStateC where
  nodes := fun _ => none
  executionLog := []
  ratificationVotes := fun _ => none
  pendingOperations := []
  config := .obj []
  configVersion := 1
  configUpdatedAt := ""
  validatorSet := []
  validatorSetUpdatedAt := .null
  participants := fun _ => false
  tasks := fun _ => none
  proposals := fun _ => none
  schemas := fun _ => none

/-- A proposal record that passes `proposal_v1` validation but carries no
`votes` key — exactly what breaks merge idempotence. -/
def cxProposal : Value := .obj [("title", .str "t"), ("proposal_type", .str "generic")]

/-- Incoming snapshot holding `cxProposal` under id `"p1"`. -/
def cxIncoming : ChannelStateC :=
  { emptyChannelState with
    proposals := fun pid => if pid = "p1" then some cxProposal else none }

/-- Number of `votes` keys of the proposal stored under `pid`. -/
def votesKeyCount (s : ChannelStateC) (pid : String) : Nat :=
  match s.proposals pid with
  | some (.obj fs) => (fs.filter (fun q => q.1 = "votes")).length
  | _ => 0

/-- **C1 counterexample.** The merge is not idempotent as claimed: with the
genesis schemas, merging a snapshot whose (schema-valid) proposal lacks a
`votes` key once stores the record as-is, while merging it a second time
appends a `votes: {}` entry to it, so
`merge(merge(A, B), B) ≠ merge(A, B)` — the two states differ at proposal
`"p1"`, which gains a `votes` key only on the re-merge. -/
theorem mergeSnapshot_not_idempotent :
    mergeSnapshot "me" genesisSchemas true
      (mergeSnapshot "me" genesisSchemas true emptyChannelState cxIncoming)
      cxIncoming ≠
    mergeSnapshot "me" genesisSchemas true emptyChannelState cxIncoming := by
  intro h
  have h2 := congrArg (fun s => votesKeyCount s "p1") h
  have hL : votesKeyCount (mergeSnapshot "me" genesisSchemas true
      (mergeSnapshot "me" genesisSchemas true emptyChannelState cxIncoming)
      cxIncoming) "p1" = 1 := by
    have hM : (mergeSnapshot "me" genesisSchemas true emptyChannelState
        cxIncoming).proposals "p1" = some cxProposal := rfl
    have hv : (validate_against_schema cxProposal (propSchemaNameOf cxProposal)
        genesisSchemas).1 = true := by decide
    have hx : cxIncoming.proposals "p1" = some cxProposal := rfl
    unfold votesKeyCount
    rw [mS_proposals]
    simp only [mergeProposals, hx, hv, hM, if_true, lt_irrefl, if_false]
    decide
  have hR : votesKeyCount (mergeSnapshot "me" genesisSchemas true
      emptyChannelState cxIncoming) "p1" = 0 := by decide
  simp only at h2
  rw [hL, hR] at h2
  exact Nat.one_ne_zero h2

/-- A well-formed proposal record (with a `votes` dict), as the source
actually creates them. -/
def wfProposal : Value := .obj [("title", .str "t"),
  ("proposal_type", .str "generic"), ("votes", .obj [("n1", .str "yes")]),
  ("updated_at", .str "2025-01-01T00:00:00+00:00")]

/-- Incoming snapshot holding `wfProposal` under id `"p1"`. -/
def wfIncoming : ChannelStateC :=
  { emptyChannelState with
    proposals := fun pid => if pid = "p1" then some wfProposal else none }

/-- Witness for `mergeSnapshot_idem`: the well-formedness hypothesis is
discharged at a concrete incoming snapshot whose proposal carries a `votes`
dict. -/
theorem mergeSnapshot_idem_witness :
    mergeSnapshot "me" genesisSchemas true
      (mergeSnapshot "me" genesisSchemas true emptyChannelState wfIncoming)
      wfIncoming =
    mergeSnapshot "me" genesisSchemas true emptyChannelState wfIncoming := by
  apply mergeSnapshot_idem
  intro pid p hp
  unfold wfIncoming at hp
  simp only at hp
  by_cases hpid : pid = "p1"
  · rw [if_pos hpid] at hp
    have hp2 : p = wfProposal := (Option.some.inj hp).symm
    rw [hp2]
    refine ⟨[("title", .str "t"), ("proposal_type", .str "generic"),
      ("votes", .obj [("n1", .str "yes")]),
      ("updated_at", .str "2025-01-01T00:00:00+00:00")],
      [("n1", .str "yes")], rfl, by decide, rfl, by decide⟩
  · rw [if_neg hpid] at hp
    exact absurd hp (by simp)

/-! ## `receive_gossip` endpoint (C4): signature check before any mutation -/

/-- `node.get("version")` as the integer the source increments. -/
def nodeVersion (nd : Value) : Int :=
  match objGet (specFields nd) "version" with
  | some (.int n) => n
  | _ => 0

/-- The re-stamp `create_signed_packet` performs on the sender's own node
entry: `last_seen = time.time()`, `version += 1`. -/
def restampSelf (selfId : String) (now : ℚ) (g : ChannelStateC) : ChannelStateC :=
  { g with
    nodes := fun nid =>
      if nid = selfId then
        (g.nodes selfId).map (fun nd =>
          .obj (objSet (objSet (specFields nd) "last_seen" (.num now))
            "version" (.int (nodeVersion nd + 1))))
      else g.nodes nid }

/-- `network_state[channel]["participants"].add(NODE_ID)`. -/
def addParticipant (selfId : String) (c : ChannelStateC) : ChannelStateC :=
  { c with participants := fun x => if x = selfId then true else c.participants x }

/-- `receive_gossip` (main.py): verify the Ed25519 signature over the exact
payload bytes first — `sigOk` is the outcome of that check, the sole use the
code makes of the cryptography — raising 401 before any state is touched;
drop packets for unsubscribed channels; otherwise merge the incoming snapshot
into the channel state under the lock and answer with a signed packet
(`create_signed_packet` also re-stamps the node's own entry and, on topical
channels, adds it to the participants). -/
def receive_gossip (sigOk : Bool) (subscribed : List String) (selfId : String)
    (now : ℚ) (channelId : String) (incoming : ChannelStateC)
    (st : String → Option ChannelStateC) :
    Except Nat String × (String → Option ChannelStateC) :=
  if !sigOk then (.error 401, st)
  else if channelId ∉ subscribed then (.ok "ignored_unsubscribed_channel", st)
  else
    let locl := (st channelId).getD emptyChannelState
    let globalSchemas := match st "global" with
      | some g => g.schemas
      | none => fun _ => none
    let merged := mergeSnapshot selfId globalSchemas (channelId = "global")
      locl incoming
    let st1 := fun c => if c = channelId then some merged else st c
    let st2 := fun c =>
      if c = "global" then (st1 "global").map (restampSelf selfId now) else st1 c
    let st3 :=
      if channelId = "global" then st2
      else fun c =>
        if c = channelId then (st2 c).map (addParticipant selfId) else st2 c
    (.ok "signed_packet", st3)

/-- **C4.** Signature soundness: a gossip packet whose Ed25519 signature does
not verify is answered with the 401 authentication error and the node state
after the call is identical to the state before it; no field of any channel
is modified. -/
theorem receive_gossip_auth_sound (sigOk : Bool) (subscribed : List String)
    (selfId : String) (now : ℚ) (channelId : String) (incoming : ChannelStateC)
    (st : String → Option ChannelStateC) (h : sigOk = false) :
    (receive_gossip sigOk subscribed selfId now channelId incoming st).1 =
      .error 401 ∧
    (receive_gossip sigOk subscribed selfId now channelId incoming st).2 = st := by
  subst h
  exact ⟨rfl, rfl⟩

/-- Witness for `receive_gossip_auth_sound` at a concrete invalid packet. -/
theorem receive_gossip_auth_sound_witness :
    (receive_gossip false ["global"] "me" 0 "global" cxIncoming
      (fun _ => none)).1 = .error 401 ∧
    (receive_gossip false ["global"] "me" 0 "global" cxIncoming
      (fun _ => none)).2 = (fun _ => none) :=
  receive_gossip_auth_sound false ["global"] "me" 0 "global" cxIncoming
    (fun _ => none) rfl

/-! ## Typed state level

The calculators, the auction engine, the command executor and the voting
endpoint read the state through fixed keys with defaults; they are embedded
over typed records (spec §9 "typed variants instead of dynamic fields").
`NetworkState.channels` is the channel-keyed part of `network_state`
(including the `"global"` entry's `proposals` dict); `NetworkState.gdata`
holds the global-only keys. -/

/-- `DEFAULT_CONFIG` keys the embedded functions read (main.py); the
governance-mutable config dict always carries them. -/
structure ConfigT where
  task_completion_reputation_reward : Int := 10
  proposal_vote_reputation_reward : Int := 1
  transaction_tax_percentage : ℚ := 1/50
  initial_balance_sp : Int := 1000
  treasury_initial_balance : Int := 0
  validator_set_size : Nat := 7

/-- A task as the calculators read it (`task.get(...)` with defaults). -/
structure TaskT where
  reward : Int := 0
  creator : Option String := none
  assignee : Option String := none
  status : Option String := none
  tags : List String := []
  title : String := ""
deriving DecidableEq

/-- An anonymous (ZKP) vote record as stored in `anonymous_votes`. -/
structure AnonVoteT where
  vote : String
  tier : String
  nullifier : String
  timestamp : String
deriving DecidableEq

/-- The outcome dict the command-execution functions return; only the
`success` flag and the error text are read downstream. -/
structure CmdResult where
  success : Bool
  error : Option String := none
deriving Repr, DecidableEq

/-- A proposal as the executor and the vote endpoint touch it. -/
structure ProposalT where
  status : String := "open"
  votes : List (String × String) := []
  anonymous_votes : List AnonVoteT := []
  updated_at : String := ""
  executed_at : Option String := none
  execution_result : Option CmdResult := none
  tags : List String := []
  title : String := ""
deriving DecidableEq

/-- A common tool as `execute_acquire_common_tool` stores it. -/
structure ToolT where
  tool_id : String
  description : String := ""
  ttype : String := "api_key"
  status : String := "active"
  monthly_cost_sp : Int := 0
  owner_channel : String := ""
  created_at : String := ""
  last_payment_at : String := ""
  encrypted_credentials : String := ""
  deprecated_at : Option String := none
deriving DecidableEq

/-- Per-channel state dict. -/
structure ChannelDataT where
  participants : List String := []
  tasks : List (String × TaskT) := []
  proposals : List (String × ProposalT) := []
  treasury_balance : Int := 0
  common_tools : List (String × ToolT) := []
  archived : Bool := false
  archived_at : Option String := none
  created_at : String := ""
  created_by_split : Bool := false
  split_from : Option String := none
  split_into : List String := []
  created_by_merge : Bool := false
  merged_from : List String := []
  merged_into : Option String := none
deriving DecidableEq

/-- The `params` dict of a ratified command, with the keys the five
`execute_*` functions read (`params.get(...)` defaults). -/
structure ParamsT where
  target_channel : Option String := none
  new_channels : List String := []
  split_logic : String := "by_tag"
  split_params : List (String × List String) := []
  source_channels : List String := []
  conflict_resolution : String := "keep_all"
  schema_name : Option String := none
  schema_definition : List (String × Value) := []
  channel : Option String := none
  tool_id : Option String := none
  description : String := ""
  ttype : String := "api_key"
  monthly_cost_sp : Int := 0
  credentials_to_encrypt : String := ""

/-- A command of the execution log. -/
structure CommandT where
  command_id : String := ""
  proposal_id : Option String := none
  operation : String := ""
  params : ParamsT := {}
  ratified_at : String := ""

/-- Global-only keys of `network_state["global"]`. -/
structure GlobalDataT where
  nodes : List String := []
  config : ConfigT := {}
  schemas : List (String × Value) := []
  execution_log : List CommandT := []
  last_executed_command_index : Int := -1
  zkp_nullifiers : List (String × List String) := []

/-- The full `network_state`. -/
structure NetworkState where
  channels : List (String × ChannelDataT) := []
  gdata : GlobalDataT := {}

def lookupChannel (st : NetworkState) (c : String) : Option ChannelDataT :=
  (st.channels.find? (fun p => p.1 = c)).map Prod.snd

def hasChannel (st : NetworkState) (c : String) : Bool :=
  (lookupChannel st c).isSome

/-- In-place mutation of one channel's dict entry. -/
def updateChannel (st : NetworkState) (c : String) (f : ChannelDataT → ChannelDataT) :
    NetworkState :=
  { st with channels := st.channels.map (fun p => if p.1 = c then (p.1, f p.2) else p) }

/-! ### `calculate_balances` / `calculate_treasuries` (C2, C8) -/

/-- `tax_amount = max(1, round(reward * TAX_RATE))` — Python `round` is
banker's rounding, embedded over the exact rational. -/
def taxAmount (taxRate : ℚ) (reward : Int) : Int :=
  max 1 (pythonRound ((reward : ℚ) * taxRate))

/-- One iteration of the task loop of `calculate_balances`, viewed at one
node `n` (the loop mutates a dict; the pointwise view is extensionally the
same map): `if reward > 0`, a truthy creator present in `balances` is debited
`reward`; then a completed task with a truthy assignee present in `balances`
credits it `reward − tax`.  Absent keys (`who in balances`) stay `none`. -/
def applyTaskToBalances (taxRate : ℚ) (m : String → Option Int) (t : TaskT) :
    String → Option Int := fun n =>
  if 0 < t.reward then
    let afterDebit :=
      match t.creator with
      | some cr =>
        if cr ≠ "" ∧ n = cr then (m n).map (fun b => b - t.reward) else m n
      | none => m n
    match t.status, t.assignee with
    | some st, some asg =>
      if st = "completed" ∧ asg ≠ "" ∧ n = asg then
        afterDebit.map (fun b => b + (t.reward - taxAmount taxRate t.reward))
      else afterDebit
    | _, _ => afterDebit
  else m n

/-- `calculate_balances` (main.py): every known node starts at
`initial_balance_sp`; every task with positive reward debits its creator
(when a known node); a completed one credits its assignee with
`reward − tax`. -/
def calculate_balances (st : NetworkState) : String → Option Int :=
  let config := st.gdata.config
  let init : String → Option Int := fun n =>
    if n ∈ st.gdata.nodes then some config.initial_balance_sp else none
  st.channels.foldl
    (fun m p =>
      if p.1 = "global" then m
      else p.2.tasks.foldl
        (fun m2 tp => applyTaskToBalances config.transaction_tax_percentage m2 tp.2)
        m)
    init

/-- One iteration of the task loop of `calculate_treasuries`. -/
def applyTaskToTreasury (taxRate : ℚ) (cid : String) (tr : Int) (t : TaskT) : Int :=
  if 0 < t.reward then
    match t.creator with
    | some cr =>
      if cr = "channel:" ++ cid then
        let tr1 := tr - t.reward
        if t.status = some "completed" then tr1 + taxAmount taxRate t.reward else tr1
      else if t.status = some "completed" ∧ cr ≠ "" then
        tr + taxAmount taxRate t.reward
      else tr
    | none => tr
  else tr

/-- The per-channel body of `calculate_treasuries`. -/
def channelTreasury (cfg : ConfigT) (cid : String) (cd : ChannelDataT) : Int :=
  cd.tasks.foldl
    (fun tr tp => applyTaskToTreasury cfg.transaction_tax_percentage cid tr tp.2)
    cfg.treasury_initial_balance

/-- Dict assignment over an association list of treasury balances. -/
def intMapSet (m : List (String × Int)) (k : String) (v : Int) :
    List (String × Int) :=
  if (m.find? (fun p => p.1 = k)).isSome then
    m.map (fun p => if p.1 = k then (k, v) else p)
  else m ++ [(k, v)]

/-- `calculate_treasuries` (main.py): per non-global channel, start at
`treasury_initial_balance`; a channel-funded task debits the reward and
refunds the tax on completion; a completed user task credits the tax. -/
def calculate_treasuries (st : NetworkState) : List (String × Int) :=
  st.channels.foldl
    (fun acc p =>
      if p.1 = "global" then acc
      else intMapSet acc p.1 (channelTreasury st.gdata.config p.1 p.2))
    []

/-- `treasuries.get(channel, 0)`. -/
def treasuryOf (st : NetworkState) (c : String) : Int :=
  (((calculate_treasuries st).find? (fun p => p.1 = c)).map Prod.snd).getD 0

/-- Net effect of one task on one node's balance (the debit summand for the
creator plus the credit summand for the assignee of a completed task). -/
def taskDelta (taxRate : ℚ) (t : TaskT) (n : String) : Int :=
  (if 0 < t.reward ∧ t.creator = some n ∧ n ≠ "" then -t.reward else 0) +
  (if 0 < t.reward ∧ t.status = some "completed" ∧ t.assignee = some n ∧ n ≠ ""
   then t.reward - taxAmount taxRate t.reward else 0)

def tasksDelta (taxRate : ℚ) (L : List (String × TaskT)) (n : String) : Int :=
  (L.map (fun tp => taskDelta taxRate tp.2 n)).sum

def channelsDelta (taxRate : ℚ) (chs : List (String × ChannelDataT))
    (n : String) : Int :=
  (chs.map (fun p => if p.1 = "global" then 0 else tasksDelta taxRate p.2.tasks n)).sum

set_option maxHeartbeats 1000000 in
theorem applyTaskToBalances_eq (taxRate : Rat) (m : String -> Option Int)
    (t : TaskT) (n : String) :
    (applyTaskToBalances taxRate m t) n =
      (m n).map (fun b => b + taskDelta taxRate t n) := by
  unfold applyTaskToBalances taskDelta
  by_cases hr : 0 < t.reward
  all_goals rcases hcrO : t.creator with _ | cr
  all_goals rcases hstO : t.status with _ | st
  all_goals rcases hasgO : t.assignee with _ | asg
  all_goals cases hm : m n
  all_goals simp only [hr, true_and, false_and, hm, if_true, if_false,
    Option.map_none', Option.map_some']
  all_goals try split_ifs with h1 h2 h3 h4
  all_goals (first
    | rfl
    | (simp_all; done)
    | (exfalso; simp_all; done)
    | (simp only [Option.some.injEq]; ring)
    | (simp only [Option.some.injEq]; omega)
    | (simp_all; ring)
    | (simp_all; omega))

theorem tasksFold_eq (taxRate : ℚ) (L : List (String × TaskT)) :
    ∀ (m : String → Option Int) (n : String),
      (L.foldl (fun m2 tp => applyTaskToBalances taxRate m2 tp.2) m) n =
        (m n).map (fun b => b + tasksDelta taxRate L n) := by
  induction L with
  | nil =>
    intro m n
    simp only [List.foldl_nil]
    rcases hm : m n with _ | b <;> simp [tasksDelta]
  | cons tp rest ih =>
    intro m n
    simp only [List.foldl_cons]
    rw [ih]
    rw [applyTaskToBalances_eq]
    cases m n <;> simp [tasksDelta] <;> ring

theorem channelsFold_eq (taxRate : ℚ) (chs : List (String × ChannelDataT)) :
    ∀ (m : String → Option Int) (n : String),
      (chs.foldl
        (fun m p =>
          if p.1 = "global" then m
          else p.2.tasks.foldl
            (fun m2 tp => applyTaskToBalances taxRate m2 tp.2) m)
        m) n =
      (m n).map (fun b => b + channelsDelta taxRate chs n) := by
  induction chs with
  | nil =>
    intro m n
    simp only [List.foldl_nil]
    rcases hm : m n with _ | b <;> simp [channelsDelta]
  | cons p rest ih =>
    intro m n
    simp only [List.foldl_cons]
    by_cases hg : p.1 = "global"
    · rw [if_pos hg, ih]
      cases m n <;> simp [channelsDelta, hg]
    · rw [if_neg hg, ih, tasksFold_eq]
      cases m n <;> simp [channelsDelta, hg] <;> ring

/-- Value-level characterisation of `calculate_balances`: the initial balance
(for known nodes) plus the sum of the per-task deltas over all non-global
channels. -/
theorem calculate_balances_eq (st : NetworkState) (n : String) :
    calculate_balances st n =
      (if n ∈ st.gdata.nodes then some st.gdata.config.initial_balance_sp
       else none).map
        (fun b => b + channelsDelta st.gdata.config.transaction_tax_percentage
          st.channels n) := by
  unfold calculate_balances
  rw [channelsFold_eq]

theorem tasksDelta_append (taxRate : ℚ) (L : List (String × TaskT))
    (tid : String) (t : TaskT) (n : String) :
    tasksDelta taxRate (L ++ [(tid, t)]) n =
      tasksDelta taxRate L n + taskDelta taxRate t n := by
  simp [tasksDelta]

theorem channelsDelta_update (taxRate : ℚ) (chs : List (String × ChannelDataT))
    (c tid : String) (t : TaskT) (n : String)
    (hnd : (chs.map Prod.fst).Nodup)
    (hc : (chs.find? (fun p => p.1 = c)).isSome)
    (hcg : c ≠ "global") :
    channelsDelta taxRate
      (chs.map (fun p =>
        if p.1 = c then (p.1, { p.2 with tasks := p.2.tasks ++ [(tid, t)] })
        else p)) n =
      channelsDelta taxRate chs n + taskDelta taxRate t n := by
  induction chs with
  | nil => simp [List.find?] at hc
  | cons p rest ih =>
    have hnd2 : (p.1 :: rest.map Prod.fst).Nodup := by
      simpa only [List.map_cons] using hnd
    by_cases hp : p.1 = c
    · have hrest : rest.map (fun p =>
          if p.1 = c then (p.1, { p.2 with tasks := p.2.tasks ++ [(tid, t)] })
          else p) = rest := by
        apply list_map_fix
        intro q hq
        have hqc : q.1 ≠ c := by
          intro hqc
          have : q.1 ∈ rest.map Prod.fst := List.mem_map.mpr ⟨q, hq, rfl⟩
          rw [hqc, ← hp] at this
          exact (List.nodup_cons.mp hnd2).1 this
        simp [hqc]
      simp only [List.map_cons, if_pos hp]
      rw [hrest]
      unfold channelsDelta
      simp only [List.map_cons, List.sum_cons]
      have hpg : p.1 ≠ "global" := by rw [hp]; exact hcg
      rw [if_neg hpg, if_neg hpg]
      rw [tasksDelta_append]
      ring
    · simp only [List.map_cons, if_neg hp]
      have hc2 : (rest.find? (fun p => p.1 = c)).isSome := by
        rw [List.find?_cons] at hc
        simpa [hp] using hc
      unfold channelsDelta
      simp only [List.map_cons, List.sum_cons]
      have := ih (List.nodup_cons.mp hnd2).2 hc2
      unfold channelsDelta at this
      rw [this]
      ring

/-! ### Treasury lookup lemmas -/

def intLookup (m : List (String × Int)) (k : String) : Option Int :=
  (m.find? (fun p => p.1 = k)).map Prod.snd

theorem intLookup_cons (n k : String) (v : Int) (t : List (String × Int)) :
    intLookup ((n, v) :: t) k = if n = k then some v else intLookup t k := by
  by_cases hnk : n = k <;> simp [intLookup, List.find?, hnk]

theorem intLookup_append (l1 l2 : List (String × Int)) (k : String) :
    intLookup (l1 ++ l2) k = (intLookup l1 k).orElse (fun _ => intLookup l2 k) := by
  induction l1 with
  | nil => simp [intLookup, List.find?]
  | cons hd t ih =>
    obtain ⟨n, v⟩ := hd
    by_cases hnk : n = k
    · simp [intLookup, List.find?, hnk]
    · simpa [intLookup, List.find?, hnk] using ih

theorem intLookup_map_replace (m : List (String × Int)) (k k' : String) (v : Int) :
    intLookup (m.map (fun p => if p.1 = k' then (k', v) else p)) k =
      if k' = k then (if (intLookup m k').isSome then some v else none)
      else intLookup m k := by
  induction m with
  | nil =>
    by_cases h : k' = k <;> simp [intLookup, List.find?, h]
  | cons hd t ih =>
    obtain ⟨n, w⟩ := hd
    simp only [List.map_cons]
    by_cases hn : n = k'
    · subst hn
      rw [if_pos rfl, intLookup_cons, intLookup_cons]
      by_cases hk : n = k
      · simp [hk]
      · rw [if_neg hk, ih, if_neg hk]
        by_cases hs : (intLookup t n).isSome <;>
          simp [hk, hs, intLookup_cons]
    · rw [if_neg hn, intLookup_cons, intLookup_cons]
      by_cases hnk2 : n = k
      · subst hnk2
        have hk : k' ≠ n := fun hc => hn hc.symm
        simp [hk, intLookup_cons]
      · rw [if_neg hnk2, ih]
        by_cases hk : k' = k <;> simp [hk, intLookup_cons, hnk2]

theorem intLookup_intMapSet (m : List (String × Int)) (k k' : String) (v : Int) :
    intLookup (intMapSet m k' v) k = if k' = k then some v else intLookup m k := by
  unfold intMapSet
  by_cases h : (m.find? (fun p => p.1 = k')).isSome
  · rw [if_pos h, intLookup_map_replace]
    have h2 : (intLookup m k').isSome := by
      unfold intLookup
      cases hf : m.find? (fun p => p.1 = k') with
      | none => rw [hf] at h; simp at h
      | some q => simp
    rw [h2]
    by_cases hk : k' = k <;> simp [hk]
  · rw [if_neg h, intLookup_append]
    by_cases hk : k' = k
    · subst hk
      have : intLookup m k' = none := by
        unfold intLookup
        cases hf : m.find? (fun p => p.1 = k') with
        | none => rfl
        | some q => rw [hf] at h; simp at h
      simp [this, intLookup_cons, Option.orElse]
    · cases hl : intLookup m k <;>
        simp [Option.orElse, intLookup_cons, hk, intLookup, List.find?, hl]

theorem intLookup_treasuryFold_not_mem (cfg : ConfigT)
    (chs : List (String × ChannelDataT)) (c : String)
    (h : c ∉ chs.map Prod.fst) :
    ∀ acc, intLookup
      (chs.foldl (fun acc p =>
        if p.1 = "global" then acc
        else intMapSet acc p.1 (channelTreasury cfg p.1 p.2)) acc) c =
      intLookup acc c := by
  induction chs with
  | nil => intro acc; rfl
  | cons p rest ih =>
    intro acc
    have hpne : p.1 ≠ c := by
      intro hc
      exact h (by simp [hc])
    have hrest : c ∉ rest.map Prod.fst := by
      intro hc
      exact h (by simp [hc])
    simp only [List.foldl_cons]
    by_cases hg : p.1 = "global"
    · rw [if_pos hg]
      exact ih hrest _
    · rw [if_neg hg, ih hrest, intLookup_intMapSet, if_neg hpne]

/-- Lookup characterisation of `calculate_treasuries` at a channel present
exactly once: its treasury is the per-channel fold over its tasks. -/
theorem treasuryOf_eq (st : NetworkState) (c : String) (cd : ChannelDataT)
    (hnd : (st.channels.map Prod.fst).Nodup)
    (hmem : (c, cd) ∈ st.channels) (hcg : c ≠ "global") :
    treasuryOf st c = channelTreasury st.gdata.config c cd := by
  unfold treasuryOf calculate_treasuries
  have key : ∀ (chs : List (String × ChannelDataT)),
      (chs.map Prod.fst).Nodup → (c, cd) ∈ chs →
      ∀ acc, intLookup
        (chs.foldl (fun acc p =>
          if p.1 = "global" then acc
          else intMapSet acc p.1 (channelTreasury st.gdata.config p.1 p.2)) acc) c =
        some (channelTreasury st.gdata.config c cd) := by
    intro chs
    induction chs with
    | nil => intro _ hmem2; simp at hmem2
    | cons p rest ih =>
      intro hnd2 hmem2 acc
      have hnd3 : (p.1 :: rest.map Prod.fst).Nodup := by
        simpa only [List.map_cons] using hnd2
      simp only [List.foldl_cons]
      rcases List.mem_cons.mp hmem2 with hp | hp
      · have hp1 : p.1 = c := by rw [← hp]
        have hnotin : c ∉ rest.map Prod.fst := by
          rw [← hp1]
          exact (List.nodup_cons.mp hnd3).1
        rw [if_neg (hp1 ▸ hcg)]
        rw [intLookup_treasuryFold_not_mem st.gdata.config rest c hnotin]
        rw [hp1, intLookup_intMapSet, if_pos rfl, ← hp]
      · have hp1 : p.1 ≠ c := by
          intro hc
          have : c ∈ rest.map Prod.fst := List.mem_map.mpr ⟨(c, cd), hp, rfl⟩
          rw [← hc] at this
          exact (List.nodup_cons.mp hnd3).1 this
        by_cases hg : p.1 = "global"
        · rw [if_pos hg]
          exact ih (List.nodup_cons.mp hnd3).2 hp _
        · rw [if_neg hg]
          exact ih (List.nodup_cons.mp hnd3).2 hp _
  have hkey := key st.channels hnd hmem []
  unfold intLookup at hkey
  rw [hkey]
  rfl

theorem channelTreasury_append (cfg : ConfigT) (c : String) (cd : ChannelDataT)
    (tid : String) (t : TaskT) :
    channelTreasury cfg c { cd with tasks := cd.tasks ++ [(tid, t)] } =
      applyTaskToTreasury cfg.transaction_tax_percentage c
        (channelTreasury cfg c cd) t := by
  unfold channelTreasury
  simp [List.foldl_append]

/-- A completed user-funded task (truthy creator that is not the channel
sentinel) credits the channel treasury exactly the tax. -/
theorem applyTaskToTreasury_user_completed (taxRate : ℚ) (c : String)
    (tr : Int) (t : TaskT) (cr : String) (hr : 0 < t.reward)
    (hcr : t.creator = some cr) (hcrch : cr ≠ "channel:" ++ c)
    (hst : t.status = some "completed") (hcrne : cr ≠ "") :
    applyTaskToTreasury taxRate c tr t = tr + taxAmount taxRate t.reward := by
  unfold applyTaskToTreasury
  rw [if_pos hr, hcr]
  simp only
  rw [if_neg hcrch, if_pos ⟨hst, hcrne⟩]

theorem channels_keys_update (chs : List (String × ChannelDataT)) (c tid : String)
    (t : TaskT) :
    (chs.map (fun p =>
      if p.1 = c then (p.1, { p.2 with tasks := p.2.tasks ++ [(tid, t)] })
      else p)).map Prod.fst = chs.map Prod.fst := by
  rw [List.map_map]
  apply List.map_congr_left
  intro p _
  by_cases hp : p.1 = c <;> simp [hp]

/-- **C2 (amended).** For a user-funded task (creator a node id, not the
channel sentinel) with reward `r > 0` added to a channel: the balance
calculator debits the creator by `r` regardless of status; when the task is
completed it credits the assignee exactly `r − tax` and the channel treasury
exactly `tax`, with `tax = max(1, round(r × transaction_tax_percentage))`
(Python banker's rounding); hence for a completed task
`creator_before − creator_after = (assignee_after − assignee_before) + tax`
— not the claimed
`creator_before − creator_after + tax = assignee_after − assignee_before + reward`,
which fails on the code (see the counterexample). -/
theorem balance_task_flow (st : NetworkState) (c tid : String) (t : TaskT)
    (cr asg : String)
    (hnd : (st.channels.map Prod.fst).Nodup)
    (cd : ChannelDataT) (hmem : (c, cd) ∈ st.channels)
    (hcg : c ≠ "global")
    (hcr : t.creator = some cr) (hcrne : cr ≠ "")
    (hcrch : cr ≠ "channel:" ++ c)
    (hasg : t.assignee = some asg) (hasgne : asg ≠ "")
    (hdistinct : cr ≠ asg)
    (hr : 0 < t.reward) :
    calculate_balances
        (updateChannel st c (fun cd0 => { cd0 with tasks := cd0.tasks ++ [(tid, t)] })) cr =
      (calculate_balances st cr).map (fun b => b - t.reward) ∧
    (t.status = some "completed" →
      calculate_balances
          (updateChannel st c (fun cd0 => { cd0 with tasks := cd0.tasks ++ [(tid, t)] })) asg =
        (calculate_balances st asg).map (fun b => b + (t.reward -
          taxAmount st.gdata.config.transaction_tax_percentage t.reward))) ∧
    (t.status = some "completed" →
      treasuryOf
          (updateChannel st c (fun cd0 => { cd0 with tasks := cd0.tasks ++ [(tid, t)] })) c =
        treasuryOf st c +
          taxAmount st.gdata.config.transaction_tax_percentage t.reward) ∧
    (t.status = some "completed" →
      ∀ b b' a a', calculate_balances st cr = some b →
        calculate_balances
          (updateChannel st c (fun cd0 => { cd0 with tasks := cd0.tasks ++ [(tid, t)] })) cr = some b' →
        calculate_balances st asg = some a →
        calculate_balances
          (updateChannel st c (fun cd0 => { cd0 with tasks := cd0.tasks ++ [(tid, t)] })) asg = some a' →
        b - b' = (a' - a) +
          taxAmount st.gdata.config.transaction_tax_percentage t.reward) := by
  have hfind : (st.channels.find? (fun p => p.1 = c)).isSome := by
    apply List.find?_isSome.mpr
    exact ⟨(c, cd), hmem, by simp⟩
  have hupd : ∀ n, calculate_balances
      (updateChannel st c (fun cd0 => { cd0 with tasks := cd0.tasks ++ [(tid, t)] })) n =
      (if n ∈ st.gdata.nodes then some st.gdata.config.initial_balance_sp
       else none).map
        (fun b => b + (channelsDelta st.gdata.config.transaction_tax_percentage
          st.channels n + taskDelta st.gdata.config.transaction_tax_percentage t n)) := by
    intro n
    rw [calculate_balances_eq]
    show (if n ∈ st.gdata.nodes then some st.gdata.config.initial_balance_sp
       else none).map _ = _
    rw [show (updateChannel st c
        (fun cd0 => { cd0 with tasks := cd0.tasks ++ [(tid, t)] })).channels =
        st.channels.map (fun p =>
          if p.1 = c then (p.1, { p.2 with tasks := p.2.tasks ++ [(tid, t)] })
          else p) from rfl]
    rw [channelsDelta_update _ _ _ _ _ _ hnd hfind hcg]
    rfl
  have hdcr : taskDelta st.gdata.config.transaction_tax_percentage t cr
      = -t.reward := by
    unfold taskDelta
    rw [if_pos ⟨hr, by rw [hcr], hcrne⟩]
    rw [if_neg (by
      rintro ⟨_, _, hac, _⟩
      rw [hasg] at hac
      exact hdistinct (Option.some.inj hac).symm)]
    ring
  have hpart1 : calculate_balances
      (updateChannel st c (fun cd0 => { cd0 with tasks := cd0.tasks ++ [(tid, t)] })) cr =
      (calculate_balances st cr).map (fun b => b - t.reward) := by
    rw [hupd, calculate_balances_eq, hdcr]
    cases hin : (if cr ∈ st.gdata.nodes then
        some st.gdata.config.initial_balance_sp else none) <;> simp <;> ring
  refine ⟨hpart1, ?_, ?_, ?_⟩
  · intro hst
    have hdasg : taskDelta st.gdata.config.transaction_tax_percentage t asg
        = t.reward - taxAmount st.gdata.config.transaction_tax_percentage t.reward := by
      unfold taskDelta
      rw [if_neg (by
        rintro ⟨_, hac, _⟩
        rw [hcr] at hac
        exact hdistinct (Option.some.inj hac))]
      rw [if_pos ⟨hr, hst, by rw [hasg], hasgne⟩]
      ring
    rw [hupd, calculate_balances_eq, hdasg]
    cases hin : (if asg ∈ st.gdata.nodes then
        some st.gdata.config.initial_balance_sp else none) <;> simp <;> ring
  · intro hst
    have hnd2 : (((updateChannel st c
        (fun cd0 => { cd0 with tasks := cd0.tasks ++ [(tid, t)] })).channels).map
        Prod.fst).Nodup := by
      rw [show (updateChannel st c
          (fun cd0 => { cd0 with tasks := cd0.tasks ++ [(tid, t)] })).channels =
          st.channels.map (fun p =>
            if p.1 = c then (p.1, { p.2 with tasks := p.2.tasks ++ [(tid, t)] })
            else p) from rfl]
      rw [channels_keys_update]
      exact hnd
    have hmem2 : (c, { cd with tasks := cd.tasks ++ [(tid, t)] }) ∈
        (updateChannel st c
          (fun cd0 => { cd0 with tasks := cd0.tasks ++ [(tid, t)] })).channels := by
      rw [show (updateChannel st c
          (fun cd0 => { cd0 with tasks := cd0.tasks ++ [(tid, t)] })).channels =
          st.channels.map (fun p =>
            if p.1 = c then (p.1, { p.2 with tasks := p.2.tasks ++ [(tid, t)] })
            else p) from rfl]
      exact List.mem_map.mpr ⟨(c, cd), hmem, by simp⟩
    rw [treasuryOf_eq _ c _ hnd2 hmem2 hcg, treasuryOf_eq st c cd hnd hmem hcg]
    rw [show (updateChannel st c
        (fun cd0 => { cd0 with tasks := cd0.tasks ++ [(tid, t)] })).gdata =
        st.gdata from rfl]
    rw [channelTreasury_append]
    exact applyTaskToTreasury_user_completed _ _ _ _ _ hr hcr hcrch hst hcrne
  · intro hst b b' a a' hb hb' ha ha'
    have h1 := hpart1
    rw [hb', hb] at h1
    have h2 : calculate_balances
        (updateChannel st c (fun cd0 => { cd0 with tasks := cd0.tasks ++ [(tid, t)] })) asg =
        (calculate_balances st asg).map (fun b => b + (t.reward -
          taxAmount st.gdata.config.transaction_tax_percentage t.reward)) := by
      have hdasg : taskDelta st.gdata.config.transaction_tax_percentage t asg
          = t.reward - taxAmount st.gdata.config.transaction_tax_percentage t.reward := by
        unfold taskDelta
        rw [if_neg (by
          rintro ⟨_, hac, _⟩
          rw [hcr] at hac
          exact hdistinct (Option.some.inj hac))]
        rw [if_pos ⟨hr, hst, by rw [hasg], hasgne⟩]
        ring
      rw [hupd, calculate_balances_eq, hdasg]
      cases hin : (if asg ∈ st.gdata.nodes then
          some st.gdata.config.initial_balance_sp else none) <;> simp <;> ring
    rw [ha', ha] at h2
    simp only [Option.map_some', Option.some.injEq] at h1 h2
    omega

/-- The S1-style completed task: reward 10, creator nodeA, assignee nodeB. -/
def c2Task : TaskT :=
  { reward := 10, creator := some "nodeA", assignee := some "nodeB",
    status := some "completed", tags := [] }

/-- Two known nodes, a fresh `dev` channel, default config (tax 2 %). -/
def c2Before : NetworkState :=
  { channels := [("global", {}), ("dev", {})],
    gdata := { nodes := ["nodeA", "nodeB"] } }

def c2After : NetworkState :=
  updateChannel c2Before "dev"
    (fun cd0 => { cd0 with tasks := cd0.tasks ++ [("t1", c2Task)] })

theorem c2_tax : taxAmount (1/50) 10 = 1 := by
  have hf : ⌊((10 : Int) : ℚ) * (1/50)⌋ = 0 := by
    rw [Int.floor_eq_iff]
    constructor <;> norm_num
  unfold taxAmount pythonRound
  rw [hf]
  norm_num

/-- **C2 counterexample.** At the default config (tax 2 %, initial balance
1000 SP) a completed task of reward 10 gives creator 990, assignee 1009,
treasury 1; the spec equation
`before(creator) − after(creator) + tax = after(assignee) − before(assignee) + reward`
reads `11 = 19` and is false. -/
theorem balance_conservation_counterexample :
    calculate_balances c2Before "nodeA" = some 1000 ∧
    calculate_balances c2After "nodeA" = some 990 ∧
    calculate_balances c2Before "nodeB" = some 1000 ∧
    calculate_balances c2After "nodeB" = some 1009 ∧
    treasuryOf c2Before "dev" = 0 ∧
    treasuryOf c2After "dev" = 1 ∧
    taxAmount c2Before.gdata.config.transaction_tax_percentage c2Task.reward = 1 ∧
    ¬((1000 - 990 : Int) + 1 = (1009 - 1000) + 10) := by
  have h := c2_tax
  have h2 : taxAmount ((50 : ℚ))⁻¹ 10 = 1 := by
    rw [(by norm_num : ((50 : ℚ))⁻¹ = 1/50)]
    exact c2_tax
  refine ⟨by decide, by decide, by decide, ?_, by decide, ?_, h, by decide⟩
  · simp [calculate_balances, applyTaskToBalances, c2After, c2Before, c2Task,
      updateChannel, h, h2]
  · simp [treasuryOf, calculate_treasuries, channelTreasury, applyTaskToTreasury,
      intMapSet, c2After, c2Before, c2Task, updateChannel, h, h2]

/-- **C2 witness.** The amended theorem instantiated at the counterexample
state: the creator is debited the full reward and the completed task pays
exactly the tax into the channel treasury. -/
theorem balance_task_flow_witness :
    calculate_balances c2After "nodeA" =
      (calculate_balances c2Before "nodeA").map (fun b => b - 10) ∧
    treasuryOf c2After "dev" = treasuryOf c2Before "dev" + taxAmount (1/50) 10 := by
  have h := balance_task_flow c2Before "dev" "t1" c2Task "nodeA" "nodeB"
    (by decide) {} (by decide) (by decide) rfl (by decide) (by decide) rfl
    (by decide) (by decide) (by decide)
  exact ⟨h.1, h.2.2.1 rfl⟩

/-! ### `select_winning_bid` (C3) -/

/-- One bid dict as `select_winning_bid` reads it. -/
structure BidT where
  amount : Int := 0
  reputation : Int := 0
  estimated_days : Int := 1
deriving DecidableEq

/-- Python `max(iterable, default=d)`. -/
def pyMax (l : List Int) (d : Int) : Int :=
  match l with
  | [] => d
  | x :: xs => xs.foldl max x

/-- The weighted score of one bid (floats carried as exact rationals):
cost 40 %, reputation 40 %, time 20 %. -/
def bidScore (max_reward max_reputation max_days : Int) (b : BidT) : ℚ :=
  let cost_score : ℚ :=
    if max_reward > 0 then ((max_reward - b.amount : Int) : ℚ) / (max_reward : ℚ)
    else 0
  let reputation_score : ℚ :=
    if max_reputation > 0 then (b.reputation : ℚ) / (max_reputation : ℚ) else 0
  let time_score : ℚ := (1 / (b.estimated_days : ℚ)) / (1 / ((max 1 max_days : Int) : ℚ))
  2/5 * cost_score + 2/5 * reputation_score + 1/5 * time_score

/-- The score `select_winning_bid` assigns to a bid, with the normalising
maxima computed from the whole bid map. -/
def auctionScore (bids : List (String × BidT)) (max_reward : Int) (b : BidT) : ℚ :=
  bidScore max_reward
    (pyMax (bids.map (fun p => p.2.reputation)) 1)
    (pyMax (bids.map (fun p => p.2.estimated_days)) 1) b

/-- `select_winning_bid` (main.py): scan the bid dict in insertion order,
keeping the first bid whose score strictly exceeds the best so far
(initially −1). -/
def select_winning_bid (bids : List (String × BidT)) (max_reward : Int) :
    Option String :=
  match bids with
  | [] => none
  | _ =>
    (bids.foldl
      (fun acc p =>
        if auctionScore bids max_reward p.2 > acc.2 then (some p.1, auctionScore bids max_reward p.2)
        else acc)
      ((none : Option String), (-1 : ℚ))).1

theorem argFold_spec {α β : Type} (f : β → ℚ) (g : β → α) :
    ∀ (L : List β) (w0 : Option α) (s0 : ℚ),
      (List.foldl (fun a p => if f p > a.2 then (some (g p), f p) else a) (w0, s0) L
          = (w0, s0) ∧ ∀ p ∈ L, f p ≤ s0) ∨
      (∃ i : Fin L.length,
        List.foldl (fun a p => if f p > a.2 then (some (g p), f p) else a) (w0, s0) L
          = (some (g (L.get i)), f (L.get i)) ∧
        s0 < f (L.get i) ∧
        (∀ p ∈ L, f p ≤ f (L.get i)) ∧
        (∀ j : Fin L.length, j.1 < i.1 → f (L.get j) < f (L.get i))) := by
  intro L
  induction L with
  | nil =>
    intro w0 s0
    left
    exact ⟨rfl, by simp⟩
  | cons x xs ih =>
    intro w0 s0
    by_cases h : f x > s0
    · have hstep :
          List.foldl (fun a p => if f p > a.2 then (some (g p), f p) else a) (w0, s0) (x :: xs)
            = List.foldl (fun a p => if f p > a.2 then (some (g p), f p) else a)
                (some (g x), f x) xs := by
        rw [List.foldl_cons]
        dsimp only
        rw [if_pos h]
      rcases ih (some (g x)) (f x) with ⟨heq, hall⟩ | ⟨i, heq, hlt, hall, hfirst⟩
      · right
        refine ⟨⟨0, by simp⟩, ?_, h, ?_, ?_⟩
        · rw [hstep, heq]
          exact rfl
        · intro p hp
          rcases List.mem_cons.mp hp with rfl | hp2
          · exact le_refl _
          · exact hall p hp2
        · intro j hj
          exact absurd hj (Nat.not_lt_zero _)
      · right
        refine ⟨⟨i.1 + 1, by simpa using i.2⟩, ?_, lt_trans h hlt, ?_, ?_⟩
        · rw [hstep, heq]
          exact rfl
        · intro p hp
          rcases List.mem_cons.mp hp with rfl | hp2
          · exact le_of_lt hlt
          · exact hall p hp2
        · intro j hj
          rcases j with ⟨jv, hjv⟩
          match jv, hjv with
          | 0, hjv => exact hlt
          | jv + 1, hjv =>
            exact hfirst ⟨jv, by simpa using hjv⟩ (by simpa using hj)
    · have hstep :
          List.foldl (fun a p => if f p > a.2 then (some (g p), f p) else a) (w0, s0) (x :: xs)
            = List.foldl (fun a p => if f p > a.2 then (some (g p), f p) else a)
                (w0, s0) xs := by
        rw [List.foldl_cons]
        dsimp only
        rw [if_neg h]
      have hx : f x ≤ s0 := not_lt.mp h
      rcases ih w0 s0 with ⟨heq, hall⟩ | ⟨i, heq, hlt, hall, hfirst⟩
      · left
        refine ⟨by rw [hstep, heq], ?_⟩
        intro p hp
        rcases List.mem_cons.mp hp with rfl | hp2
        · exact hx
        · exact hall p hp2
      · right
        refine ⟨⟨i.1 + 1, by simpa using i.2⟩, ?_, hlt, ?_, ?_⟩
        · rw [hstep, heq]
          exact rfl
        · intro p hp
          rcases List.mem_cons.mp hp with rfl | hp2
          · exact le_trans hx (le_of_lt hlt)
          · exact hall p hp2
        · intro j hj
          rcases j with ⟨jv, hjv⟩
          match jv, hjv with
          | 0, hjv => exact lt_of_le_of_lt hx hlt
          | jv + 1, hjv =>
            exact hfirst ⟨jv, by simpa using hjv⟩ (by simpa using hj)

theorem auctionScore_nonneg (bids : List (String × BidT)) (max_reward : Int)
    (b : BidT)
    (hpos : 0 < max_reward) (hamt : b.amount ≤ max_reward)
    (hdays : 1 ≤ b.estimated_days) (hrep : 0 ≤ b.reputation) :
    0 ≤ auctionScore bids max_reward b := by
  unfold auctionScore bidScore
  dsimp only
  have hc : (0 : ℚ) ≤ ((max_reward - b.amount : Int) : ℚ) / (max_reward : ℚ) := by
    apply div_nonneg
    · exact_mod_cast Int.sub_nonneg.mpr hamt
    · exact_mod_cast le_of_lt hpos
  have hrw : (if max_reward > 0 then ((max_reward - b.amount : Int) : ℚ) / (max_reward : ℚ) else 0)
      = ((max_reward - b.amount : Int) : ℚ) / (max_reward : ℚ) := if_pos hpos
  rw [hrw]
  have hr : (0 : ℚ) ≤
      (if pyMax (bids.map (fun p => p.2.reputation)) 1 > 0 then
        (b.reputation : ℚ) / ((pyMax (bids.map (fun p => p.2.reputation)) 1 : Int) : ℚ)
      else 0) := by
    by_cases hm : pyMax (bids.map (fun p => p.2.reputation)) 1 > 0
    · rw [if_pos hm]
      apply div_nonneg
      · exact_mod_cast hrep
      · exact_mod_cast le_of_lt hm
    · rw [if_neg hm]
  have ht : (0 : ℚ) ≤ (1 / (b.estimated_days : ℚ)) /
      (1 / ((max 1 (pyMax (bids.map (fun p => p.2.estimated_days)) 1) : Int) : ℚ)) := by
    apply div_nonneg
    · apply div_nonneg
      · norm_num
      · exact_mod_cast le_trans zero_le_one hdays
    · apply div_nonneg
      · norm_num
      · have : (1 : Int) ≤ max 1 (pyMax (bids.map (fun p => p.2.estimated_days)) 1) :=
          le_max_left _ _
        exact_mod_cast le_trans zero_le_one this
  nlinarith [hc, hr, ht]

/-- **C3 (amended).** On a non-empty bid map whose bids all satisfy the
invariants `place_bid` enforces (`0 < amount ≤ max_reward`,
`estimated_days ≥ 1`, `reputation ≥ 0`) with `max_reward > 0`,
`select_winning_bid` returns the bidder at some position `i` of the map whose
composite score (cost 40 %, reputation 40 %, time 20 %, normalised over the
bid map) is maximal, and every bid at an earlier position scores strictly
less: ties are broken by dict insertion order (first bidder wins), not by
ascending peer-id sort as the spec states (see the counterexample). -/
theorem select_winning_bid_argmax (bids : List (String × BidT)) (max_reward : Int)
    (hne : bids ≠ [])
    (hpos : 0 < max_reward)
    (hb : ∀ p ∈ bids, 0 < p.2.amount ∧ p.2.amount ≤ max_reward ∧
      1 ≤ p.2.estimated_days ∧ 0 ≤ p.2.reputation) :
    ∃ i : Fin bids.length,
      select_winning_bid bids max_reward = some (bids.get i).1 ∧
      (∀ p ∈ bids, auctionScore bids max_reward p.2 ≤
        auctionScore bids max_reward (bids.get i).2) ∧
      (∀ j : Fin bids.length, j.1 < i.1 →
        auctionScore bids max_reward (bids.get j).2 <
          auctionScore bids max_reward (bids.get i).2) := by
  match bids, hne with
  | q :: rest, _ =>
    rcases argFold_spec (fun p => auctionScore (q :: rest) max_reward p.2)
        Prod.fst (q :: rest) none (-1) with ⟨heq, hall⟩ | ⟨i, heq, hlt, hall, hfirst⟩
    · exfalso
      have h0 : (0 : ℚ) ≤ auctionScore (q :: rest) max_reward q.2 := by
        have hq := hb q (List.mem_cons_self q rest)
        exact auctionScore_nonneg _ _ _ hpos hq.2.1 hq.2.2.1 hq.2.2.2
      have h1 := hall q (List.mem_cons_self q rest)
      simp only at h1
      linarith
    · refine ⟨i, ?_, hall, hfirst⟩
      show (List.foldl
        (fun acc p =>
          if auctionScore (q :: rest) max_reward p.2 > acc.2 then
            (some p.1, auctionScore (q :: rest) max_reward p.2)
          else acc)
        ((none : Option String), (-1 : ℚ)) (q :: rest)).1 = _
      rw [heq]

def c3Bid : BidT := { amount := 5, reputation := 0, estimated_days := 1 }

/-- Two identical bids; the dict lists peer `b` before peer `a`. -/
def c3Bids : List (String × BidT) := [("b", c3Bid), ("a", c3Bid)]

theorem c3_score : auctionScore [("b", c3Bid), ("a", c3Bid)] 10 c3Bid = 2/5 := by
  norm_num [auctionScore, bidScore, pyMax, c3Bid]

/-- **C3 counterexample.** Two bids with identical dicts (hence identical
scores) from peers `b` and `a`, inserted in that order: the code returns `b`,
the first in insertion order, although `a < b`, so the spec's ascending
peer-id tie-break would select `a`. -/
theorem select_winning_bid_tiebreak_counterexample :
    select_winning_bid c3Bids 10 = some "b" ∧
    c3Bids.map Prod.snd = [c3Bid, c3Bid] ∧
    c3Bids.map Prod.fst = ["b", "a"] ∧
    "a" < "b" ∧
    some "b" ≠ some "a" := by
  refine ⟨?_, rfl, rfl, ?_, by decide⟩
  · norm_num [select_winning_bid, c3Bids, c3_score]
  · simp [String.lt_iff_toList_lt]
    decide

/-- **C3 witness.** The amended theorem at the two-bid map above. -/
theorem select_winning_bid_argmax_witness :
    ∃ i : Fin c3Bids.length,
      select_winning_bid c3Bids 10 = some (c3Bids.get i).1 ∧
      (∀ p ∈ c3Bids, auctionScore c3Bids 10 p.2 ≤
        auctionScore c3Bids 10 (c3Bids.get i).2) ∧
      (∀ j : Fin c3Bids.length, j.1 < i.1 →
        auctionScore c3Bids 10 (c3Bids.get j).2 <
          auctionScore c3Bids 10 (c3Bids.get i).2) :=
  select_winning_bid_argmax c3Bids 10 (by decide) (by decide) (by decide)

/-! ### `vote_on_proposal` / `verify_reputation_proof` (C5) -/

/-- `proof.get(k)` on the proof dict (string values). -/
def strLookup (l : List (String × String)) (k : String) : Option String :=
  (l.find? (fun p => p.1 = k)).map Prod.snd

/-- Dict assignment `votes[k] = v` on the public-vote map. -/
def strMapSet (m : List (String × String)) (k v : String) :
    List (String × String) :=
  if (m.find? (fun p => p.1 = k)).isSome then
    m.map (fun p => if p.1 = k then (k, v) else p)
  else m ++ [(k, v)]

/-- Python `set.add` on the per-proposal nullifier set (membership view). -/
def setAdd (l : List String) (x : String) : List String :=
  if x ∈ l then l else x :: l

def required_fields : List String :=
  ["tier", "nullifier", "commitment", "challenge", "response", "timestamp"]

/-- `verify_reputation_proof` (zkp_utils.py).  `H` stands for SHA-256 on the
colon-joined preimage; `parseTime` for `datetime.fromisoformat` plus the
aware/naive subtraction, `none` meaning the `except`-caught failure; `now`
is the verification time in epoch seconds.  The old-proof message elides the
formatted minute count. -/
def verify_reputation_proof (H : String → String) (parseTime : String → Option ℚ)
    (now : ℚ) (proof : List (String × String)) (proposal_id : String)
    (used_nullifiers : List String) : Bool × String :=
  match required_fields.find? (fun f => (strLookup proof f).isNone) with
  | some f => (false, "Campo mancante: " ++ f)
  | none =>
    let tier := (strLookup proof "tier").getD ""
    if (REPUTATION_TIERS.find? (fun p => p.1 = tier)).isNone then
      (false, "Tier non valido: " ++ tier)
    else
      let nullifier := (strLookup proof "nullifier").getD ""
      if nullifier ∈ used_nullifiers then
        (false, "Nullifier già usato (double voting detected)")
      else
        match parseTime ((strLookup proof "timestamp").getD "") with
        | none => (false, "Errore nella verifica")
        | some proof_time =>
          let time_diff := now - proof_time
          if time_diff > 3600 then (false, "Proof troppo vecchio")
          else if time_diff < -60 then (false, "Proof dal futuro (clock skew)")
          else
            let expected := H ((strLookup proof "commitment").getD "" ++ ":" ++
              tier ++ ":" ++ nullifier ++ ":" ++ proposal_id)
            if (strLookup proof "challenge").getD "" ≠ expected then
              (false, "Challenge non valido (Fiat-Shamir check failed)")
            else (true, "")

/-- The vote request body (`VotePayload`). -/
structure VotePayload where
  vote : String
  anonymous : Bool := false
  zkp_proof : Option (List (String × String)) := none

/-- The state `vote_on_proposal` touches: the proposal record and the
per-proposal nullifier set of `network_state["global"]["zkp_nullifiers"]`. -/
structure VoteState where
  proposal : ProposalT
  nullifiers : List String := []
deriving DecidableEq

/-- `vote_on_proposal` (main.py), after the 404 lookup: an `HTTPException`
becomes `Except.error` with the detail text, leaving the state unchanged. -/
def vote_on_proposal (H : String → String) (parseTime : String → Option ℚ)
    (now : ℚ) (nowIso selfId proposal_id : String) (payload : VotePayload)
    (st : VoteState) : Except String VoteState :=
  if st.proposal.status ≠ "open" then Except.error "La proposta è già chiusa"
  else if payload.anonymous then
    match payload.zkp_proof with
    | none => Except.error "ZKP proof richiesto per voto anonimo"
    | some proof =>
      match verify_reputation_proof H parseTime now proof proposal_id st.nullifiers with
      | (false, error_msg) => Except.error ("ZKP non valido: " ++ error_msg)
      | (true, _) =>
        let nullifier := (strLookup proof "nullifier").getD ""
        Except.ok
          { proposal :=
              { st.proposal with
                anonymous_votes := st.proposal.anonymous_votes ++
                  [{ vote := payload.vote,
                     tier := (strLookup proof "tier").getD "",
                     nullifier := nullifier,
                     timestamp := (strLookup proof "timestamp").getD "" }],
                updated_at := nowIso },
            nullifiers := setAdd st.nullifiers nullifier }
  else
    Except.ok
      { st with
        proposal :=
          { st.proposal with
            votes := strMapSet st.proposal.votes selfId payload.vote,
            updated_at := nowIso } }

theorem strLookup_strMapSet (m : List (String × String)) (k v : String) :
    strLookup (strMapSet m k v) k = some v := by
  unfold strMapSet
  by_cases h : (m.find? (fun p => p.1 = k)).isSome
  · rw [if_pos h]
    unfold strLookup
    induction m with
    | nil => simp at h
    | cons x xs ih =>
      by_cases hx : x.1 = k
      · simp [List.find?, hx]
      · rw [List.find?_cons_of_neg _ (by simpa using hx)] at h
        simp only [List.map_cons, if_neg hx]
        rw [List.find?_cons_of_neg _ (by simpa using hx)]
        exact ih h
  · rw [if_neg h]
    unfold strLookup
    induction m with
    | nil => simp [List.find?]
    | cons x xs ih =>
      by_cases hx : x.1 = k
      · exfalso
        apply h
        simp [List.find?, hx]
      · rw [List.find?_cons_of_neg _ (by simpa using hx)] at h
        simp only [List.cons_append]
        rw [List.find?_cons_of_neg _ (by simpa using hx)]
        exact ih h

theorem strMapSet_keys_nodup (m : List (String × String)) (k v : String)
    (hnd : (m.map Prod.fst).Nodup) :
    ((strMapSet m k v).map Prod.fst).Nodup := by
  unfold strMapSet
  by_cases h : (m.find? (fun p => p.1 = k)).isSome
  · rw [if_pos h]
    have hkeys : (m.map (fun p => if p.1 = k then (k, v) else p)).map Prod.fst
        = m.map Prod.fst := by
      rw [List.map_map]
      apply List.map_congr_left
      intro p _
      by_cases hp : p.1 = k <;> simp [hp]
    rw [hkeys]
    exact hnd
  · rw [if_neg h]
    have hnm : k ∉ m.map Prod.fst := by
      intro hmem
      apply h
      rcases List.mem_map.mp hmem with ⟨p, hp, hpk⟩
      exact List.find?_isSome.mpr ⟨p, hp, by simpa using hpk⟩
    rw [List.map_append]
    simp only [List.map_cons, List.map_nil]
    rw [List.nodup_append]
    exact ⟨hnd, List.nodup_singleton _, by
      intro a ha hb
      simp only [List.mem_singleton] at hb
      subst hb
      exact hnm ha⟩

/-- **C5 (amended).** With the proposal open: an anonymous re-vote whose
proof is well-formed (all required fields, valid tier) but whose nullifier
is already in the proposal's used set is rejected with an error and records
nothing (the state is returned unchanged only inside `Except.error`, i.e.
not at all); a public re-vote is NOT rejected — `votes[NODE_ID] = vote`
overwrites silently — yet the votes map still holds at most one entry per
voter: the voter's entry now reads the new vote and key-uniqueness is
preserved.  The spec's claim that a public double vote raises ConflictError
does not hold (see the counterexample). -/
theorem double_vote_handling (H : String → String) (parseTime : String → Option ℚ)
    (now : ℚ) (nowIso selfId proposal_id : String) (payload : VotePayload)
    (st : VoteState) (hopen : st.proposal.status = "open") :
    (∀ proof, payload.anonymous = true → payload.zkp_proof = some proof →
      (∀ f ∈ required_fields, (strLookup proof f).isSome) →
      (REPUTATION_TIERS.find? (fun p =>
        p.1 = (strLookup proof "tier").getD "")).isSome →
      (strLookup proof "nullifier").getD "" ∈ st.nullifiers →
      vote_on_proposal H parseTime now nowIso selfId proposal_id payload st =
        Except.error "ZKP non valido: Nullifier già usato (double voting detected)") ∧
    (payload.anonymous = false →
      ∃ st2,
        vote_on_proposal H parseTime now nowIso selfId proposal_id payload st =
          Except.ok st2 ∧
        strLookup st2.proposal.votes selfId = some payload.vote ∧
        ((st.proposal.votes.map Prod.fst).Nodup →
          (st2.proposal.votes.map Prod.fst).Nodup)) := by
  constructor
  · intro proof hanon hproof hfields htier hnull
    unfold vote_on_proposal
    rw [if_neg (by simp [hopen]), if_pos hanon, hproof]
    have hver : verify_reputation_proof H parseTime now proof proposal_id
        st.nullifiers = (false, "Nullifier già usato (double voting detected)") := by
      unfold verify_reputation_proof
      have hfind : required_fields.find? (fun f => (strLookup proof f).isNone)
          = none := by
        rw [List.find?_eq_none]
        intro f hf
        simpa using Option.isSome_iff_ne_none.mp (hfields f hf)
      rw [hfind]
      dsimp only
      have htier2 : (REPUTATION_TIERS.find? (fun p =>
          p.1 = (strLookup proof "tier").getD "")).isNone = false := by
        rcases Option.isSome_iff_exists.mp htier with ⟨x, hx⟩
        simp [hx]
      rw [if_neg (by simp [htier2])]
      rw [if_pos hnull]
    dsimp only
    rw [hver]
    rfl
  · intro hanon
    refine ⟨{ st with proposal := { st.proposal with
        votes := strMapSet st.proposal.votes selfId payload.vote,
        updated_at := nowIso } }, ?_, ?_, ?_⟩
    · unfold vote_on_proposal
      rw [if_neg (by simp [hopen]), if_neg (by simp [hanon])]
    · exact strLookup_strMapSet _ _ _
    · intro hnd
      exact strMapSet_keys_nodup _ _ _ hnd

/-- A proposal already carrying a `yes` vote by `n1`. -/
def c5PubBefore : VoteState :=
  { proposal := { status := "open", votes := [("n1", "yes")] }, nullifiers := [] }

/-- **C5 counterexample.** Node `n1`, which has already voted `yes`, votes
publicly again with `no`: the endpoint returns success (no ConflictError)
and the votes map now reads `no` — the second public vote is recorded by
silent overwrite, contradicting the spec. -/
theorem public_double_vote_counterexample :
    vote_on_proposal (fun s => s) (fun _ => none) 0 "T1" "n1" "p1"
        { vote := "no", anonymous := false, zkp_proof := none } c5PubBefore
      = Except.ok
        { proposal := { status := "open", votes := [("n1", "no")], updated_at := "T1" },
          nullifiers := [] } := by
  rfl

def c5Proof : List (String × String) :=
  [("tier", "novice"), ("nullifier", "N"), ("commitment", "C"),
   ("challenge", "X"), ("response", "R"), ("timestamp", "T0")]

def c5AnonSt : VoteState :=
  { proposal := { status := "open" }, nullifiers := ["N"] }

/-- **C5 witness.** An anonymous vote whose well-formed proof reuses the
nullifier `N`, already in the proposal's used set, is rejected with the
double-voting error. -/
theorem double_vote_handling_witness :
    vote_on_proposal (fun s => s) (fun _ => some 0) 0 "T1" "n1" "p1"
        { vote := "yes", anonymous := true, zkp_proof := some c5Proof } c5AnonSt =
      Except.error "ZKP non valido: Nullifier già usato (double voting detected)" :=
  (double_vote_handling (fun s => s) (fun _ => some 0) 0 "T1" "n1" "p1"
      { vote := "yes", anonymous := true, zkp_proof := some c5Proof } c5AnonSt rfl).1
    c5Proof rfl rfl (by decide) (by decide) (by decide)

/-! ### The five `execute_*` functions, `dispatch_command` and the
command-processor step (C6, C8) -/

/-- Dict assignment on a string-keyed association list. -/
def dictSet {α : Type} (m : List (String × α)) (k : String) (v : α) :
    List (String × α) :=
  if (m.find? (fun p => p.1 = k)).isSome then
    m.map (fun p => if p.1 = k then (k, v) else p)
  else m ++ [(k, v)]

/-- A `None` channel name, as rendered by the f-strings and used as a dict
key, is embedded as the sentinel string "None" (no state in this
development uses it as a real channel id). -/
def optKey : Option String → String
  | some s => s
  | none => "None"

/-- Python `str.lower()` (ASCII view of the title comparison). -/
def pyLower (s : String) : String := ⟨s.data.map Char.toLower⟩

/-- Python `str.startswith`. -/
def strStartsWith (s pre : String) : Bool := pre.data.isPrefixOf s.data

/-- The empty channel dict `execute_split_channel` creates. -/
def emptySplitChannel (tc now : String) : ChannelDataT :=
  { created_by_split := true, split_from := some tc, created_at := now }

/-- First `(channel_name, required)` entry of `split_params` whose channel is
one of the new channels and whose entry matches (the loop `break`s). -/
def splitDest (split_params : List (String × List String))
    (new_channels : List String) (sel : List String → Bool) : Option String :=
  (split_params.find? (fun cp => new_channels.contains cp.1 && sel cp.2)).map
    Prod.fst

def addTaskTo (st : NetworkState) (c tid : String) (t : TaskT) : NetworkState :=
  updateChannel st c (fun cd => { cd with tasks := dictSet cd.tasks tid t })

def addProposalTo (st : NetworkState) (c pid : String) (p : ProposalT) :
    NetworkState :=
  updateChannel st c (fun cd => { cd with proposals := dictSet cd.proposals pid p })

/-- `execute_split_channel` (main.py).  The moved-entity counters only feed
the result dict fields that `CmdResult` does not carry. -/
def execute_split_channel (now : String) (params : ParamsT) (st : NetworkState) :
    NetworkState × CmdResult :=
  let target := optKey params.target_channel
  let new_channels := params.new_channels
  if ¬ hasChannel st target then
    (st, { success := false, error := some ("Canale '" ++ target ++ "' non trovato") })
  else
    let st1 := new_channels.foldl (fun s nc =>
      if hasChannel s nc then s
      else { s with channels := s.channels ++ [(nc, emptySplitChannel target now)] }) st
    let targetTasks := ((lookupChannel st1 target).getD {}).tasks
    let targetProps := ((lookupChannel st1 target).getD {}).proposals
    let st2 :=
      if params.split_logic = "by_tag" then
        let stA := targetTasks.foldl (fun s tp =>
          match splitDest params.split_params new_channels
              (fun req => tp.2.tags.any (fun t => req.contains t)) with
          | some dest => addTaskTo s dest tp.1 tp.2
          | none => s) st1
        targetProps.foldl (fun s pp =>
          match splitDest params.split_params new_channels
              (fun req => pp.2.tags.any (fun t => req.contains t)) with
          | some dest => addProposalTo s dest pp.1 pp.2
          | none => s) stA
      else if params.split_logic = "by_title_prefix" then
        let stA := targetTasks.foldl (fun s tp =>
          match splitDest params.split_params new_channels
              (fun pres => pres.any (fun q =>
                strStartsWith (pyLower tp.2.title) (pyLower q))) with
          | some dest => addTaskTo s dest tp.1 tp.2
          | none => s) st1
        targetProps.foldl (fun s pp =>
          match splitDest params.split_params new_channels
              (fun pres => pres.any (fun q =>
                strStartsWith (pyLower pp.2.title) (pyLower q))) with
          | some dest => addProposalTo s dest pp.1 pp.2
          | none => s) stA
      else st1
    let st3 := updateChannel st2 target (fun cd =>
      { cd with archived := true, archived_at := some now, split_into := new_channels })
    (st3, { success := true })

def emptyMergeChannel (sources : List String) (now : String) : ChannelDataT :=
  { created_by_merge := true, merged_from := sources, created_at := now }

/-- Python `set.update` on the participants set (insertion-ordered view). -/
def setUnion (a b : List String) : List String :=
  b.foldl (fun acc x => if x ∈ acc then acc else acc ++ [x]) a

/-- `execute_merge_channels` (main.py). -/
def execute_merge_channels (now : String) (params : ParamsT) (st : NetworkState) :
    NetworkState × CmdResult :=
  let target := optKey params.target_channel
  let st1 :=
    if ¬ hasChannel st target then
      { st with channels :=
        st.channels ++ [(target, emptyMergeChannel params.source_channels now)] }
    else st
  let st2 := params.source_channels.foldl (fun s src =>
    if ¬ hasChannel s src then s
    else
      let srcData := (lookupChannel s src).getD {}
      let sA := srcData.tasks.foldl (fun s2 tp =>
        if params.conflict_resolution = "keep_all" then addTaskTo s2 target tp.1 tp.2
        else s2) s
      let sB := srcData.proposals.foldl (fun s2 pp =>
        if params.conflict_resolution = "keep_all" then addProposalTo s2 target pp.1 pp.2
        else s2) sA
      let sC := updateChannel sB target (fun cd =>
        { cd with participants := setUnion cd.participants srcData.participants })
      updateChannel sC src (fun cd =>
        { cd with archived := true, archived_at := some now, merged_into := some target })) st1
  (st2, { success := true })

/-- `execute_update_schema` (main.py); `schema_definition` is embedded as the
dict it is in every reachable command. -/
def execute_update_schema (now : String) (params : ParamsT) (st : NetworkState) :
    NetworkState × CmdResult :=
  let sd := params.schema_definition
  match params.schema_name with
  | none => (st, { success := false, error := some "schema_name è obbligatorio" })
  | some name =>
    if name = "" then
      (st, { success := false, error := some "schema_name è obbligatorio" })
    else if sd.isEmpty then
      (st, { success := false, error := some "schema_definition è obbligatoria" })
    else if (objGet sd "schema_name").isNone then
      (st, { success := false, error := some "Campo obbligatorio 'schema_name' mancante nella schema_definition" })
    else if (objGet sd "fields").isNone then
      (st, { success := false, error := some "Campo obbligatorio 'fields' mancante nella schema_definition" })
    else if Value.beq ((objGet sd "schema_name").getD .null) (.str name) = false then
      (st, { success := false, error := some "schema_name in params non corrisponde a quello in definition" })
    else
      let is_new := (st.gdata.schemas.find? (fun p => p.1 = name)).isNone
      let def1 := objSet sd "updated_at" (.str now)
      let def2 := if is_new then objSet def1 "created_at" (.str now) else def1
      ({ st with gdata :=
          { st.gdata with schemas := dictSet st.gdata.schemas name (.obj def2) } },
       { success := true })

/-- `execute_acquire_common_tool` (main.py).  `encrypt` stands for
`encrypt_tool_credentials`, `none` meaning the caught exception; formatted
numbers in the insufficiency message are elided. -/
def execute_acquire_common_tool (encrypt : String → String → Option String)
    (now : String) (params : ParamsT) (st : NetworkState) :
    NetworkState × CmdResult :=
  let channel := optKey params.channel
  let cost := params.monthly_cost_sp
  if params.channel = none ∨ channel = "" ∨ ¬ hasChannel st channel then
    (st, { success := false, error := some ("Canale '" ++ channel ++ "' non trovato") })
  else
    match params.tool_id with
    | none => (st, { success := false, error := some "tool_id è obbligatorio" })
    | some tid =>
      if tid = "" then
        (st, { success := false, error := some "tool_id è obbligatorio" })
      else if params.credentials_to_encrypt = "" then
        (st, { success := false, error := some "credentials_to_encrypt è obbligatorio" })
      else
        let cd := (lookupChannel st channel).getD {}
        if (cd.common_tools.find? (fun p => p.1 = tid)).isSome then
          (st, { success := false, error := some ("Tool '" ++ tid ++
            "' già esistente nel canale '" ++ channel ++ "'") })
        else
          let current := treasuryOf st channel
          if current < cost then
            (st, { success := false, error := some "Tesoreria insufficiente" })
          else
            let st1 := updateChannel st channel
              (fun cd0 => { cd0 with treasury_balance := current - cost })
            match encrypt params.credentials_to_encrypt channel with
            | none =>
              (updateChannel st1 channel
                (fun cd0 => { cd0 with treasury_balance := current }),
               { success := false, error := some "Errore durante la crittografia" })
            | some enc =>
              let tool : ToolT :=
                { tool_id := tid
                  description := params.description
                  ttype := params.ttype
                  status := "active"
                  monthly_cost_sp := cost
                  owner_channel := channel
                  created_at := now
                  last_payment_at := now
                  encrypted_credentials := enc }
              (updateChannel st1 channel (fun cd0 =>
                { cd0 with common_tools := dictSet cd0.common_tools tid tool }),
               { success := true })

/-- `execute_deprecate_common_tool` (main.py). -/
def execute_deprecate_common_tool (now : String) (params : ParamsT)
    (st : NetworkState) : NetworkState × CmdResult :=
  let channel := optKey params.channel
  if params.channel = none ∨ channel = "" ∨ ¬ hasChannel st channel then
    (st, { success := false, error := some ("Canale '" ++ channel ++ "' non trovato") })
  else
    match params.tool_id with
    | none => (st, { success := false, error := some "tool_id è obbligatorio" })
    | some tid =>
      if tid = "" then
        (st, { success := false, error := some "tool_id è obbligatorio" })
      else
        let cd := (lookupChannel st channel).getD {}
        match (cd.common_tools.find? (fun p => p.1 = tid)).map Prod.snd with
        | none => (st, { success := false, error := some ("Tool '" ++ tid ++
            "' non trovato nel canale '" ++ channel ++ "'") })
        | some tool =>
          if tool.status = "deprecated" then (st, { success := true })
          else
            (updateChannel st channel (fun cd0 =>
              { cd0 with common_tools := cd0.common_tools.map (fun p =>
                if p.1 = tid then
                  (p.1, { p.2 with status := "deprecated", deprecated_at := some now })
                else p) }),
             { success := true })

/-- `dispatch_command` (main.py). -/
def dispatch_command (encrypt : String → String → Option String) (now : String)
    (command : CommandT) (st : NetworkState) : NetworkState × CmdResult :=
  if command.operation = "split_channel" then
    execute_split_channel now command.params st
  else if command.operation = "merge_channels" then
    execute_merge_channels now command.params st
  else if command.operation = "update_schema" then
    execute_update_schema now command.params st
  else if command.operation = "acquire_common_tool" then
    execute_acquire_common_tool encrypt now command.params st
  else if command.operation = "deprecate_common_tool" then
    execute_deprecate_common_tool now command.params st
  else (st, { success := false, error := some ("Operazione '" ++ command.operation ++ "' non riconosciuta") })

/-- The first channel holding the proposal is updated and the loop breaks. -/
def updateFirstProposal (st : NetworkState) (pid : String)
    (f : ProposalT → ProposalT) : NetworkState :=
  match st.channels.find? (fun p =>
      (p.2.proposals.find? (fun q => q.1 = pid)).isSome) with
  | none => st
  | some pc =>
    updateChannel st pc.1 (fun cd =>
      { cd with proposals := cd.proposals.map (fun q =>
        if q.1 = pid then (q.1, f q.2) else q) })

/-- One iteration of the `for i in range(...)` loop of
`command_processor_task`: dispatch the command at index `i`, advance
`last_executed_command_index` to `i`, then mark the originating proposal —
unconditionally with status `"executed"`, whatever `result["success"]` is. -/
def processOne (encrypt : String → String → Option String) (now : String)
    (st : NetworkState) (i : Nat) : NetworkState :=
  match st.gdata.execution_log.get? i with
  | none => st
  | some command =>
    let r := dispatch_command encrypt now command st
    let st2 := { r.1 with gdata :=
      { r.1.gdata with last_executed_command_index := (i : Int) } }
    match command.proposal_id with
    | none => st2
    | some pid =>
      if pid = "" then st2
      else updateFirstProposal st2 pid (fun p =>
        { p with status := "executed", executed_at := some now, execution_result := some r.2, updated_at := now })

theorem updateFirstProposal_gdata (st : NetworkState) (pid : String)
    (f : ProposalT → ProposalT) :
    (updateFirstProposal st pid f).gdata = st.gdata := by
  unfold updateFirstProposal
  cases h : st.channels.find? (fun p =>
    (p.2.proposals.find? (fun q => q.1 = pid)).isSome) <;> rfl

theorem find_key_of_mem_nodup {α : Type} (c : String) (a : α) :
    ∀ (l : List (String × α)), (l.map Prod.fst).Nodup → (c, a) ∈ l →
      l.find? (fun p => p.1 = c) = some (c, a) := by
  intro l
  induction l with
  | nil =>
    intro _ h
    simp at h
  | cons x xs ih =>
    intro hnd hmem
    by_cases hx : x.1 = c
    · rw [List.find?_cons_of_pos _ (by simpa using hx)]
      rcases List.mem_cons.mp hmem with h | h
      · rw [← h]
      · exfalso
        simp only [List.map_cons, List.nodup_cons] at hnd
        apply hnd.1
        rw [hx]
        exact List.mem_map.mpr ⟨(c, a), h, rfl⟩
    · rw [List.find?_cons_of_neg _ (by simpa using hx)]
      rcases List.mem_cons.mp hmem with h | h
      · exact absurd (by rw [← h]) hx
      · exact ih (by simp only [List.map_cons, List.nodup_cons] at hnd; exact hnd.2) h

theorem find_key_map_replace {α : Type} (c : String) (g : String × α → α) :
    ∀ (l : List (String × α)),
      (l.map (fun p => if p.1 = c then (p.1, g p) else p)).find?
          (fun p => p.1 = c)
        = (l.find? (fun p => p.1 = c)).map (fun p => (p.1, g p)) := by
  intro l
  induction l with
  | nil => rfl
  | cons x xs ih =>
    by_cases hx : x.1 = c
    · simp only [List.map_cons, if_pos hx]
      rw [List.find?_cons_of_pos _ (by simpa using hx),
        List.find?_cons_of_pos _ (by simpa using hx)]
      rfl
    · simp only [List.map_cons, if_neg hx]
      rw [List.find?_cons_of_neg _ (by simpa using hx),
        List.find?_cons_of_neg _ (by simpa using hx)]
      exact ih

/-- **C6 (amended).** Processing the command at log position `i` advances
`last_executed_command_index` to `i` whether or not the command succeeded,
and stamps the originating proposal (first channel holding it, in channel
iteration order) with `executed_at = now`, `execution_result = result` and
status `"executed"` UNCONDITIONALLY — the status is `"executed"` even when
`result.success = false`; no `"failed"` status is ever written (the spec's
`executed|failed` split does not exist in the code, see the counterexample).
A failing command is still never retried and never blocks later commands,
because the index advances regardless. -/
theorem command_processor_marks_executed
    (encrypt : String → String → Option String) (now : String)
    (st : NetworkState) (i : Nat) (cmd : CommandT)
    (hcmd : st.gdata.execution_log.get? i = some cmd)
    (pid : String) (hpid : cmd.proposal_id = some pid) (hpne : pid ≠ "") :
    ((processOne encrypt now st i).gdata.last_executed_command_index = (i : Int)) ∧
    (∀ st1 result, dispatch_command encrypt now cmd st = (st1, result) →
      ∀ c cd, st1.channels.find? (fun p =>
          (p.2.proposals.find? (fun q => q.1 = pid)).isSome) = some (c, cd) →
        (st1.channels.map Prod.fst).Nodup →
        ∃ prop, (cd.proposals.find? (fun q => q.1 = pid)).map Prod.snd = some prop ∧
          ∃ cd2, lookupChannel (processOne encrypt now st i) c = some cd2 ∧
            (cd2.proposals.find? (fun q => q.1 = pid)).map Prod.snd =
              some { prop with status := "executed", executed_at := some now, execution_result := some result, updated_at := now }) := by
  unfold processOne
  rw [hcmd]
  dsimp only
  rw [hpid]
  dsimp only
  rw [if_neg hpne]
  constructor
  · rw [updateFirstProposal_gdata]
  · intro st1 result hdc c cd hfind hnd
    rw [hdc]
    dsimp only
    have hpred : ((cd.proposals.find? (fun q => q.1 = pid)).isSome : Bool) = true := by
      have := List.find?_some hfind
      simpa using this
    obtain ⟨q0, hq0⟩ := Option.isSome_iff_exists.mp hpred
    have hq0key : q0.1 = pid := by
      have := List.find?_some hq0
      simpa using this
    have hmemc : (c, cd) ∈ st1.channels := List.mem_of_find?_eq_some hfind
    refine ⟨q0.2, by rw [hq0]; rfl, ?_⟩
    unfold updateFirstProposal
    rw [show ({ st1 with gdata := { st1.gdata with
        last_executed_command_index := (i : Int) } } : NetworkState).channels
      = st1.channels from rfl]
    rw [hfind]
    unfold lookupChannel updateChannel
    rw [find_key_map_replace, find_key_of_mem_nodup c cd st1.channels hnd hmemc]
    refine ⟨_, rfl, ?_⟩
    rw [find_key_map_replace, hq0]
    rfl

/-- A ratified command whose operation no executor recognises. -/
def c6Cmd : CommandT :=
  { command_id := "c1", proposal_id := some "p1", operation := "bogus", params := {}, ratified_at := "" }

def c6St : NetworkState :=
  { channels := [("global", {}), ("ch", { proposals := [("p1", {})] })],
    gdata := { execution_log := [c6Cmd] } }

/-- **C6 counterexample.** Processing a command whose dispatch FAILS
(`success = false`, unknown operation) still stamps the originating proposal
with status `"executed"` — not `"failed"` as the spec requires — while
recording the failing result and advancing the index. -/
theorem executor_failed_command_counterexample :
    (lookupChannel (processOne (fun _ _ => none) "T1" c6St 0) "ch").map
        (fun cd => cd.proposals) =
      some [("p1", { status := "executed", updated_at := "T1", executed_at := some "T1", execution_result := some { success := false, error := some "Operazione 'bogus' non riconosciuta" } })] ∧
    (processOne (fun _ _ => none) "T1" c6St 0).gdata.last_executed_command_index = 0 ∧
    ({ success := false, error := some "Operazione 'bogus' non riconosciuta" } : CmdResult).success = false ∧
    "executed" ≠ "failed" := by
  refine ⟨by decide, by decide, rfl, by decide⟩

/-- **C6 witness.** The amended theorem at the failing command above: the
index still advances to the command position. -/
theorem command_processor_marks_executed_witness :
    (processOne (fun _ _ => none) "T1" c6St 0).gdata.last_executed_command_index = 0 :=
  (command_processor_marks_executed (fun _ _ => none) "T1" c6St 0 c6Cmd rfl "p1"
    rfl (by decide)).1

/-! ### Treasury non-negativity of `execute_acquire_common_tool` (C8) -/

theorem treasuryFold_congr (cfg : ConfigT) :
    ∀ (l l2 : List (String × ChannelDataT)),
      l2.map (fun p => (p.1, p.2.tasks)) = l.map (fun p => (p.1, p.2.tasks)) →
      ∀ acc,
        l2.foldl (fun acc p => if p.1 = "global" then acc
          else intMapSet acc p.1 (channelTreasury cfg p.1 p.2)) acc
        = l.foldl (fun acc p => if p.1 = "global" then acc
            else intMapSet acc p.1 (channelTreasury cfg p.1 p.2)) acc := by
  intro l
  induction l with
  | nil =>
    intro l2 h acc
    cases l2 with
    | nil => rfl
    | cons y ys => simp at h
  | cons x xs ih =>
    intro l2 h acc
    cases l2 with
    | nil => simp at h
    | cons y ys =>
      simp only [List.map_cons, List.cons.injEq, Prod.mk.injEq] at h
      obtain ⟨⟨hk, ht⟩, htail⟩ := h
      simp only [List.foldl_cons]
      rw [show (if y.1 = "global" then acc
          else intMapSet acc y.1 (channelTreasury cfg y.1 y.2))
        = (if x.1 = "global" then acc
          else intMapSet acc x.1 (channelTreasury cfg x.1 x.2)) from by
        rw [hk]
        congr 2
        unfold channelTreasury
        rw [ht]]
      exact ih ys htail _

theorem treasuryOf_congr (st st2 : NetworkState)
    (h : calculate_treasuries st2 = calculate_treasuries st) (c : String) :
    treasuryOf st2 c = treasuryOf st c := by
  unfold treasuryOf
  rw [h]

theorem calculate_treasuries_congr (st st2 : NetworkState)
    (hcfg : st2.gdata.config = st.gdata.config)
    (h : st2.channels.map (fun p => (p.1, p.2.tasks))
       = st.channels.map (fun p => (p.1, p.2.tasks))) :
    calculate_treasuries st2 = calculate_treasuries st := by
  unfold calculate_treasuries
  rw [hcfg]
  exact treasuryFold_congr st.gdata.config st.channels st2.channels h []

theorem updateChannel_tasksMap (st : NetworkState) (c : String)
    (f : ChannelDataT → ChannelDataT) (hf : ∀ cd, (f cd).tasks = cd.tasks) :
    (updateChannel st c f).channels.map (fun p => (p.1, p.2.tasks))
      = st.channels.map (fun p => (p.1, p.2.tasks)) := by
  unfold updateChannel
  rw [List.map_map]
  apply List.map_congr_left
  intro p _
  by_cases hp : p.1 = c <;> simp [hp, hf]

theorem updateChannel_keys (st : NetworkState) (c : String)
    (f : ChannelDataT → ChannelDataT) :
    (updateChannel st c f).channels.map Prod.fst = st.channels.map Prod.fst := by
  unfold updateChannel
  rw [List.map_map]
  apply List.map_congr_left
  intro p _
  by_cases hp : p.1 = c <;> simp [hp]

theorem lookupChannel_updateChannel (st : NetworkState) (c : String)
    (f : ChannelDataT → ChannelDataT) (cd : ChannelDataT)
    (hnd : (st.channels.map Prod.fst).Nodup) (hmem : (c, cd) ∈ st.channels) :
    lookupChannel (updateChannel st c f) c = some (f cd) := by
  unfold lookupChannel updateChannel
  rw [find_key_map_replace, find_key_of_mem_nodup c cd st.channels hnd hmem]
  rfl

/-- The tool dict a successful acquisition stores. -/
def acquiredTool (params : ParamsT) (tid c now enc : String) : ToolT :=
  { tool_id := tid, description := params.description, ttype := params.ttype,
    status := "active", monthly_cost_sp := params.monthly_cost_sp,
    owner_channel := c, created_at := now, last_payment_at := now,
    encrypted_credentials := enc }

/-- **C8.** With well-formed parameters (existing non-empty channel, fresh
non-empty tool id, non-empty credentials): `execute_acquire_common_tool`
refuses — error result, state returned unchanged — whenever the channel's
computed treasury is below `monthly_cost_sp`; and when the treasury covers a
non-negative cost and encryption succeeds, the acquisition succeeds, the
channel's treasury as subsequently computed is unchanged (the calculators
derive treasuries from tasks only) and hence non-negative, and the stored
`treasury_balance` is set to exactly `treasury − cost ≥ 0`. -/
theorem acquire_tool_treasury_guard
    (encrypt : String → String → Option String) (now : String)
    (params : ParamsT) (st : NetworkState) (c tid : String)
    (hch : params.channel = some c) (hc : c ≠ "")
    (hhas : hasChannel st c = true)
    (htid : params.tool_id = some tid) (htidne : tid ≠ "")
    (hcred : params.credentials_to_encrypt ≠ "")
    (htool : (((lookupChannel st c).getD {}).common_tools.find?
      (fun p => p.1 = tid)).isNone = true) :
    (treasuryOf st c < params.monthly_cost_sp →
      execute_acquire_common_tool encrypt now params st =
        (st, { success := false, error := some "Tesoreria insufficiente" })) ∧
    (params.monthly_cost_sp ≤ treasuryOf st c → 0 ≤ params.monthly_cost_sp →
      ∀ enc, encrypt params.credentials_to_encrypt c = some enc →
        ∃ st2, execute_acquire_common_tool encrypt now params st =
            (st2, { success := true }) ∧
          treasuryOf st2 c = treasuryOf st c ∧ 0 ≤ treasuryOf st2 c ∧
          ((st.channels.map Prod.fst).Nodup →
            ∀ cd, (c, cd) ∈ st.channels →
              ∃ cd2, lookupChannel st2 c = some cd2 ∧
                cd2.treasury_balance = treasuryOf st c - params.monthly_cost_sp ∧
                0 ≤ cd2.treasury_balance)) := by
  have hunf : ∀ (goalSt : NetworkState × CmdResult),
      execute_acquire_common_tool encrypt now params st = goalSt ↔
      (if treasuryOf st c < params.monthly_cost_sp then
        (st, ({ success := false, error := some "Tesoreria insufficiente" } : CmdResult))
      else
        match encrypt params.credentials_to_encrypt c with
        | none =>
          (updateChannel (updateChannel st c (fun cd0 =>
              { cd0 with treasury_balance := treasuryOf st c - params.monthly_cost_sp })) c
            (fun cd0 => { cd0 with treasury_balance := treasuryOf st c }),
           ({ success := false, error := some "Errore durante la crittografia" } : CmdResult))
        | some enc =>
          (updateChannel (updateChannel st c (fun cd0 =>
              { cd0 with treasury_balance := treasuryOf st c - params.monthly_cost_sp })) c
            (fun cd0 => { cd0 with common_tools :=
                            dictSet cd0.common_tools tid (acquiredTool params tid c now enc) }),
           ({ success := true } : CmdResult))) = goalSt := by
    intro goalSt
    unfold execute_acquire_common_tool
    rw [hch, htid]
    dsimp only [optKey]
    rw [if_neg (by
      rintro (h1 | h2 | h3)
      · exact Option.noConfusion h1
      · exact hc h2
      · exact h3 hhas)]
    rw [if_neg htidne, if_neg hcred]
    rw [if_neg (by simp only [Option.isNone_iff_eq_none] at htool; simp [htool])]
    exact Iff.rfl
  constructor
  · intro hlt
    rw [hunf]
    rw [if_pos hlt]
  · intro hge h0 enc henc
    refine ⟨updateChannel (updateChannel st c (fun cd0 =>
        { cd0 with treasury_balance := treasuryOf st c - params.monthly_cost_sp })) c
      (fun cd0 => { cd0 with common_tools :=
                      dictSet cd0.common_tools tid (acquiredTool params tid c now enc) }),
      ?_, ?_, ?_, ?_⟩
    · rw [hunf]
      rw [if_neg (not_lt.mpr hge), henc]
    · have h1 := updateChannel_tasksMap st c (fun cd0 =>
        { cd0 with treasury_balance := treasuryOf st c - params.monthly_cost_sp })
        (fun cd => rfl)
      have h2 := updateChannel_tasksMap (updateChannel st c (fun cd0 =>
        { cd0 with treasury_balance := treasuryOf st c - params.monthly_cost_sp })) c
        (fun cd0 => { cd0 with common_tools :=
                        dictSet cd0.common_tools tid (acquiredTool params tid c now enc) })
        (fun cd => rfl)
      exact treasuryOf_congr st _ (calculate_treasuries_congr st _ (by rfl) (h2.trans h1)) c
    · have h1 := updateChannel_tasksMap st c (fun cd0 =>
        { cd0 with treasury_balance := treasuryOf st c - params.monthly_cost_sp })
        (fun cd => rfl)
      have h2 := updateChannel_tasksMap (updateChannel st c (fun cd0 =>
        { cd0 with treasury_balance := treasuryOf st c - params.monthly_cost_sp })) c
        (fun cd0 => { cd0 with common_tools :=
                        dictSet cd0.common_tools tid (acquiredTool params tid c now enc) })
        (fun cd => rfl)
      have heq : treasuryOf (updateChannel (updateChannel st c (fun cd0 =>
          { cd0 with treasury_balance := treasuryOf st c - params.monthly_cost_sp })) c
          (fun cd0 => { cd0 with common_tools :=
                          dictSet cd0.common_tools tid (acquiredTool params tid c now enc) })) c
          = treasuryOf st c := by
        exact treasuryOf_congr st _ (calculate_treasuries_congr st _ (by rfl) (h2.trans h1)) c
      rw [heq]
      exact le_trans h0 hge
    · intro hnd cd hmem
      have hnd1 : ((updateChannel st c (fun cd0 =>
          { cd0 with treasury_balance := treasuryOf st c - params.monthly_cost_sp })).channels.map
          Prod.fst).Nodup := by
        rw [updateChannel_keys]
        exact hnd
      have hmem1 : (c, ({ cd with treasury_balance := treasuryOf st c - params.monthly_cost_sp } : ChannelDataT)) ∈
          (updateChannel st c (fun cd0 =>
            { cd0 with treasury_balance := treasuryOf st c - params.monthly_cost_sp })).channels := by
        unfold updateChannel
        exact List.mem_map.mpr ⟨(c, cd), hmem, by simp⟩
      refine ⟨_, lookupChannel_updateChannel _ c _ _ hnd1 hmem1, ?_, ?_⟩
      · rfl
      · dsimp only
        omega

def c8Params : ParamsT :=
  { channel := some "ops", tool_id := some "t1",
    credentials_to_encrypt := "secret", monthly_cost_sp := 0 }

def c8St : NetworkState := { channels := [("global", {}), ("ops", {})], gdata := {} }

/-- **C8 witness.** A zero-cost acquisition on a fresh channel (computed
treasury 0) succeeds and both the computed treasury and the stored balance
stay non-negative. -/
theorem acquire_tool_treasury_guard_witness :
    ∃ st2, execute_acquire_common_tool (fun x y => some (x ++ y)) "T1" c8Params c8St =
        (st2, { success := true }) ∧
      treasuryOf st2 "ops" = treasuryOf c8St "ops" ∧ 0 ≤ treasuryOf st2 "ops" ∧
      ((c8St.channels.map Prod.fst).Nodup →
        ∀ cd, ("ops", cd) ∈ c8St.channels →
          ∃ cd2, lookupChannel st2 "ops" = some cd2 ∧
            cd2.treasury_balance = treasuryOf c8St "ops" - c8Params.monthly_cost_sp ∧
            0 ≤ cd2.treasury_balance) :=
  (acquire_tool_treasury_guard (fun x y => some (x ++ y)) "T1" c8Params c8St "ops" "t1"
    rfl (by decide) (by decide) rfl (by decide) (by decide) (by decide)).2
    (by decide) (by decide) ("secret" ++ "ops") rfl

/-! ### `calculate_reputations` / `determine_validator_set` (C7) -/

/-- The v2 reputation record (`_total`, `_last_updated`, `tags`). -/
structure RepT where
  total : Int := 0
  last_updated : String := ""
  tags : List (String × Int) := []
deriving DecidableEq

/-- `reputations[assignee]["tags"][tag] += task_reward` (or `=` when new). -/
def addTagReward (tags : List (String × Int)) (tag : String) (r : Int) :
    List (String × Int) :=
  if (tags.find? (fun p => p.1 = tag)).isSome then
    tags.map (fun p => if p.1 = tag then (p.1, p.2 + r) else p)
  else tags ++ [(tag, r)]

def repReplace (reps : List (String × RepT)) (k : String) (f : RepT → RepT) :
    List (String × RepT) :=
  reps.map (fun q => if q.1 = k then (q.1, f q.2) else q)

/-- `calculate_reputations` (main.py): every known node starts at total 0;
each completed non-global task with a known truthy assignee adds
`task_completion_reputation_reward` to the assignee's total and per-tag
counters; each public vote on any proposal adds
`proposal_vote_reputation_reward` to the voter's total. -/
def calculate_reputations (now : String) (st : NetworkState) :
    List (String × RepT) :=
  let task_reward := st.gdata.config.task_completion_reputation_reward
  let vote_reward := st.gdata.config.proposal_vote_reputation_reward
  let init := st.gdata.nodes.map (fun n =>
    (n, ({ total := 0, last_updated := now, tags := [] } : RepT)))
  let afterTasks := st.channels.foldl (fun reps p =>
    if p.1 = "global" then reps
    else p.2.tasks.foldl (fun reps tp =>
      if tp.2.status = some "completed" then
        match tp.2.assignee with
        | some asg =>
          if asg ≠ "" ∧ (reps.find? (fun q => q.1 = asg)).isSome then
            repReplace reps asg (fun r => { r with tags := tp.2.tags.foldl (fun tg t => addTagReward tg t task_reward) r.tags, total := r.total + task_reward })
          else reps
        | none => reps
      else reps) reps) init
  st.channels.foldl (fun reps p =>
    p.2.proposals.foldl (fun reps pp =>
      pp.2.votes.foldl (fun reps v =>
        if (reps.find? (fun q => q.1 = v.1)).isSome then
          repReplace reps v.1 (fun r => { r with total := r.total + vote_reward })
        else reps) reps) reps) afterTasks

/-- `reputations.get(node_id, 0)`: a present key yields the dict, an absent
one the int default — the dynamic type of the value. -/
def repGet (reps : List (String × RepT)) (nid : String) : Sum RepT Int :=
  match (reps.find? (fun p => p.1 = nid)).map Prod.snd with
  | some r => Sum.inl r
  | none => Sum.inr 0

/-- Python `value >= 0`: comparing a dict with an int raises TypeError. -/
def pyGeInt : Sum RepT Int → Int → Except String Bool
  | Sum.inl _, _ => Except.error
      "TypeError: unsupported operand comparison between dict and int"
  | Sum.inr n, m => Except.ok (decide (n ≥ m))

/-- The list comprehension building `eligible_nodes`, failing at the first
raising comparison. -/
def filterE (p : String → Except String Bool) : List String →
    Except String (List String)
  | [] => Except.ok []
  | x :: xs => do
    let b ← p x
    let rest ← filterE p xs
    pure (if b then x :: rest else rest)

/-- `sorted(eligible, key=..., reverse=True)`.  With at most one element no
comparison runs; with two or more, every key takes part in at least one
comparison, so a dict-valued key raises and all-int keys give a stable
descending sort. -/
def sortedByRepDesc (reps : List (String × RepT)) (l : List String) :
    Except String (List String) :=
  if l.length ≤ 1 then Except.ok l
  else if l.any (fun nid => (reps.find? (fun p => p.1 = nid)).isSome) then
    Except.error "TypeError: unsupported operand comparison between dict and int"
  else
    Except.ok ((l.map (fun nid => (nid, (0 : Int)))).insertionSort
      (fun a b => b.2 ≤ a.2) |>.map Prod.fst)

/-- `determine_validator_set` (main.py) as the election loop actually calls
it, i.e. with the dict-valued reputation map `calculate_reputations`
returns although the signature expects ints. -/
def determine_validator_set (st : NetworkState) (reps : List (String × RepT)) :
    Except String (List String) := do
  let eligible ← filterE (fun nid => pyGeInt (repGet reps nid) 0) st.gdata.nodes
  let sorted_nodes ← sortedByRepDesc reps eligible
  Except.ok (sorted_nodes.take st.gdata.config.validator_set_size)

theorem repReplace_keys (reps : List (String × RepT)) (k : String)
    (f : RepT → RepT) :
    (repReplace reps k f).map Prod.fst = reps.map Prod.fst := by
  unfold repReplace
  rw [List.map_map]
  apply List.map_congr_left
  intro p _
  by_cases hp : p.1 = k <;> simp [hp]

theorem foldl_keys_invariant {β : Type}
    (step : List (String × RepT) → β → List (String × RepT))
    (h : ∀ m b, (step m b).map Prod.fst = m.map Prod.fst) :
    ∀ (L : List β) (m : List (String × RepT)),
      (L.foldl step m).map Prod.fst = m.map Prod.fst := by
  intro L
  induction L with
  | nil => intro m; rfl
  | cons x xs ih =>
    intro m
    rw [List.foldl_cons, ih (step m x), h]

theorem calculate_reputations_keys (now : String) (st : NetworkState) :
    (calculate_reputations now st).map Prod.fst = st.gdata.nodes := by
  unfold calculate_reputations
  have hstep3 : ∀ (reps : List (String × RepT)) (v : String × String),
      ((if (reps.find? (fun q => q.1 = v.1)).isSome then
        repReplace reps v.1 (fun r =>
          { r with total := r.total + st.gdata.config.proposal_vote_reputation_reward })
      else reps).map Prod.fst) = reps.map Prod.fst := by
    intro reps v
    by_cases hv : (reps.find? (fun q => q.1 = v.1)).isSome
    · rw [if_pos hv, repReplace_keys]
    · rw [if_neg hv]
  have hstep2 : ∀ (reps : List (String × RepT)) (pp : String × ProposalT),
      ((pp.2.votes.foldl (fun reps v =>
        if (reps.find? (fun q => q.1 = v.1)).isSome then
          repReplace reps v.1 (fun r =>
            { r with total := r.total + st.gdata.config.proposal_vote_reputation_reward })
        else reps) reps).map Prod.fst) = reps.map Prod.fst := by
    intro reps pp
    exact foldl_keys_invariant _ hstep3 pp.2.votes reps
  have hvotes : ∀ (reps : List (String × RepT)),
      ((st.channels.foldl (fun reps p =>
        p.2.proposals.foldl (fun reps pp =>
          pp.2.votes.foldl (fun reps v =>
            if (reps.find? (fun q => q.1 = v.1)).isSome then
              repReplace reps v.1 (fun r =>
                { r with total := r.total + st.gdata.config.proposal_vote_reputation_reward })
            else reps) reps) reps) reps).map Prod.fst) = reps.map Prod.fst := by
    intro reps
    exact foldl_keys_invariant _
      (fun m p => foldl_keys_invariant _ hstep2 p.2.proposals m) st.channels reps
  have htask1 : ∀ (reps : List (String × RepT)) (tp : String × TaskT),
      ((if tp.2.status = some "completed" then
        match tp.2.assignee with
        | some asg =>
          if asg ≠ "" ∧ (reps.find? (fun q => q.1 = asg)).isSome then
            repReplace reps asg (fun r => { r with tags := tp.2.tags.foldl (fun tg t => addTagReward tg t st.gdata.config.task_completion_reputation_reward) r.tags, total := r.total + st.gdata.config.task_completion_reputation_reward })
          else reps
        | none => reps
      else reps).map Prod.fst) = reps.map Prod.fst := by
    intro reps tp
    by_cases hs : tp.2.status = some "completed"
    · rw [if_pos hs]
      cases ha : tp.2.assignee with
      | none => rfl
      | some asg =>
        dsimp only
        by_cases hcond : asg ≠ "" ∧ (reps.find? (fun q => q.1 = asg)).isSome
        · rw [if_pos hcond, repReplace_keys]
        · rw [if_neg hcond]
    · rw [if_neg hs]
  have htasks : ∀ (reps : List (String × RepT)),
      ((st.channels.foldl (fun reps p =>
        if p.1 = "global" then reps
        else p.2.tasks.foldl (fun reps tp =>
          if tp.2.status = some "completed" then
            match tp.2.assignee with
            | some asg =>
              if asg ≠ "" ∧ (reps.find? (fun q => q.1 = asg)).isSome then
                repReplace reps asg (fun r => { r with tags := tp.2.tags.foldl (fun tg t => addTagReward tg t st.gdata.config.task_completion_reputation_reward) r.tags, total := r.total + st.gdata.config.task_completion_reputation_reward })
              else reps
            | none => reps
          else reps) reps) reps).map Prod.fst) = reps.map Prod.fst := by
    intro reps
    refine foldl_keys_invariant _ ?_ st.channels reps
    intro m p
    by_cases hp : p.1 = "global"
    · rw [if_pos hp]
    · rw [if_neg hp]
      exact foldl_keys_invariant _ htask1 p.2.tasks m
  rw [hvotes, htasks]
  rw [List.map_map]
  exact List.map_id _

/-- **C7 (code bug).** On every snapshot with at least one known node, the
validator-election pipeline — `determine_validator_set` applied to the
dict-valued map `calculate_reputations` actually produces — raises
`TypeError` at `reputations.get(node_id, 0) >= 0`, because every known node
has a dict entry and Python cannot compare a dict with an int.  The election
therefore never computes a validator set on a non-trivial network, and the
claimed top-N-by-`_total` ordering is unrealisable as coded. -/
theorem validator_election_type_error (now : String) (st : NetworkState)
    (hne : st.gdata.nodes ≠ []) :
    determine_validator_set st (calculate_reputations now st) =
      Except.error "TypeError: unsupported operand comparison between dict and int" := by
  have hkeys := calculate_reputations_keys now st
  cases hn : st.gdata.nodes with
  | nil => exact absurd hn hne
  | cons n0 rest =>
    rw [hn] at hkeys
    have hfind : ((calculate_reputations now st).find? (fun p => p.1 = n0)).isSome := by
      cases hr : calculate_reputations now st with
      | nil => rw [hr] at hkeys; simp at hkeys
      | cons q qs =>
        rw [hr] at hkeys
        simp only [List.map_cons, List.cons.injEq] at hkeys
        rw [List.find?_cons_of_pos _ (by simp [hkeys.1])]
        rfl
    unfold determine_validator_set
    rw [hn]
    unfold filterE
    obtain ⟨q, hq⟩ := Option.isSome_iff_exists.mp hfind
    have hget : repGet (calculate_reputations now st) n0 = Sum.inl q.2 := by
      unfold repGet
      rw [hq]
      rfl
    rw [hget]
    rfl

def c7St : NetworkState :=
  { channels := [("global", {})], gdata := { nodes := ["n1"] } }

/-- **C7 witness.** A single-node network: the election pipeline raises
TypeError instead of returning the one-node validator set. -/
theorem validator_election_type_error_witness :
    determine_validator_set c7St (calculate_reputations "T0" c7St) =
      Except.error "TypeError: unsupported operand comparison between dict and int" :=
  validator_election_type_error "T0" c7St (by decide)

end SynapseNG



